import Mathlib

/-!
Verification of the `sugar` argument-binding engine.

This file gives a shallow embedding, in Lean 4, of the core of the `sugar`
library (a Python command-line argument parser generator), together with
theorems checking its natural-language specification against the code.

Embedded components, each translated from the corresponding source file:
* the token classifier `parse_flag_and_value` / `separate_argv`
  (`src/sugar/_parser.py`);
* the restricted literal evaluator `convert` / `ext_eval` and the derived
  converters (`src/sugar/_eval.py`), together with a model of the host
  language's expression parser (`compile(source, "<string>", "eval",
  PyCF_ONLY_AST)`), which the source calls but does not define;
* the type resolver `resolve_type`, the structural instance check
  `ext_isinstance`, and the action deriver `_auto` (`src/sugar/_action.py`);
* the binding resolver `ArgumentParser.parse_vals` / `_handle_errors`
  (`src/sugar/_parser.py`).

Machine conventions: Python strings are Lean `String`s (the embedding of the
character predicates `str.isidentifier` / `str.isalpha` is faithful on ASCII
input, which is the only input exercised here); Python exceptions are
`Except` errors; Python's bounded recursion is modelled with an explicit
fuel parameter where the source recursion is not structural, and a theorem
stating that a computation succeeds at a fixed fuel is the embedding of the
claim that the source computation terminates.
-/

namespace Sugar

/-! # Part 1: the token classifier (`src/sugar/_parser.py`)

`parse_flag_and_value` classifies one raw token as a long flag, a short flag
(possibly a combined cluster) or a plain value; `separate_argv` splits a raw
argument vector into leading positional values and named value groups.
-/

/-- ASCII model of Python `str.isalpha` on a single character. -/
def pyIsAlphaChar (c : Char) : Bool :=
  c.isAlpha

/-- ASCII model of Python `str.isidentifier`: nonempty, first character a
letter or underscore, remaining characters letters, digits or underscores. -/
def pyIsIdentifier (s : String) : Bool :=
  match s.data with
  | [] => false
  | c :: cs => (c.isAlpha || c = '_') && cs.all (fun d => d.isAlpha || d.isDigit || d = '_')

/-- Python `s.replace("-", "_")` (single-character replacement). -/
def pyReplaceDash (s : String) : String :=
  String.mk (s.data.map (fun c => if c = '-' then '_' else c))

/-- Python `s.replace("_", "A").isalpha()`, the source's "dirty hack" that
validates a short-flag cluster: nonempty and every character a letter or an
underscore. -/
def pyShortFlagOk (s : String) : Bool :=
  let t := s.data.map (fun c => if c = '_' then 'A' else c)
  !t.isEmpty && t.all pyIsAlphaChar

/-- Python `repr` of an identifier-like string (no quote escaping needed). -/
def pyRepr (s : String) : String :=
  "'" ++ s ++ "'"

/-- `FlagEnum` from `src/sugar/_parser.py`. -/
inductive FlagEnum where
  | long
  | short
  | non
  deriving DecidableEq, Repr

/-- `parse_flag_and_value` from `src/sugar/_parser.py` (lines 866-888).
The two booleans are the `error_on_bad_long` / `error_on_bad_short` keyword
parameters (defaults `True` / `False`). -/
def parse_flag_and_value (errorOnBadLong errorOnBadShort : Bool) (arg : String) :
    Except String (FlagEnum × String) :=
  if (arg.take 2) = "--" then
    let flag := pyReplaceDash (arg.drop 2)
    if pyIsIdentifier flag then .ok (.long, flag)
    else if errorOnBadLong then .error ("invalid long flag " ++ pyRepr arg)
    else .ok (.non, arg)
  else if (arg.take 1) = "-" then
    let flag := pyReplaceDash (arg.drop 1)
    if pyShortFlagOk flag then .ok (.short, flag)
    else if errorOnBadShort then .error ("invalid short flag " ++ pyRepr arg)
    else .ok (.non, arg)
  else .ok (.non, arg)

/-- One named group produced by the classifier: flag name and its value tokens. -/
abbrev NamedVals := List (String × List String)

/-- The body of the `pairwise(iflags)` loop of `separate_argv`: for the flag
at index `i` (values reaching up to index `j`), emit the named groups.  For a
combined short cluster every character but the last is a zero-value flag and
the last absorbs the value slice. -/
def separateGroup (enumVals : List (FlagEnum × String)) (vs : List String)
    (i j : Nat) : NamedVals :=
  let (e, flag) := enumVals.getD i (.non, "")
  let slice := (vs.drop (i + 1)).take (j - (i + 1))
  if e = .short then
    match flag.data.reverse with
    | [] => [(flag, slice)]
    | last :: revInit =>
        (revInit.reverse.map (fun c => (String.singleton c, ([] : List String))))
          ++ [(String.singleton last, slice)]
  else
    [(flag, slice)]

/-- `separate_argv` from `src/sugar/_parser.py` (lines 891-917): classify each
token, take all value tokens before the first flag as positionals, and
attach later value tokens to the nearest preceding flag. -/
def separate_argv (argv : List String) : Except String (List String × NamedVals) := do
  if argv.isEmpty then
    return ([], [])
  let enumVals ← argv.mapM (parse_flag_and_value true false)
  let vs := enumVals.map (·.2)
  let iflags := ((enumVals.enum.filter (fun p => p.2.1 ≠ .non)).map (·.1))
    ++ [enumVals.length]
  let vals := vs.take (iflags.headD enumVals.length)
  let named_vals := (iflags.zip iflags.tail).flatMap
    (fun (i, j) => separateGroup enumVals vs i j)
  return (vals, named_vals)

end Sugar

namespace Sugar

/-! # Part 2: the literal evaluator (`src/sugar/_eval.py`)

`ext_eval` parses one token string through the host language's expression
parser and folds the resulting tree into a restricted literal value via
`convert`.  The host parser (`compile(source, "<string>", "eval",
PyCF_ONLY_AST)`) is external to the repository; it is modelled here by
`pyParseExpr`, a tokenizer and recursive-descent parser for the expression
fragment the evaluator can receive: identifiers, numeric literals in all
four bases with underscore separators and imaginary suffix, quoted and byte
strings, `True`/`False`/`None`/`...`, unary and binary `+`/`-`, calls,
tuple/list/set/dict displays and `**` unpacking inside braces. -/

/-- A restricted Python runtime value, as produced by the literal evaluator.
Floats are modelled as exact rationals; `set` and `dict` values keep
insertion order and do not deduplicate (none of the verified properties
compares sets or dicts for equality). -/
inductive PyVal where
  | none
  | ellipsis
  | bool (b : Bool)
  | int (n : Int)
  | float (q : Rat)
  | complex (re im : Rat)
  | str (s : String)
  | bytes (s : String)
  | tuple (xs : List PyVal)
  | list (xs : List PyVal)
  | set (xs : List PyVal)
  | dict (items : List (PyVal × PyVal))

/-- A token of the modelled host expression parser. -/
inductive PTok where
  | name (s : String)
  | intTok (n : Int)
  | floatTok (q : Rat)
  | imagTok (q : Rat)
  | strLit (s : String)
  | bytesLit (s : String)
  | lparen | rparen | lbrack | rbrack | lbrace | rbrace
  | comma | colon | plus | minus | star | doublestar | assign | dot | dots
  deriving DecidableEq, Repr

/-- Identifier-constituent character (ASCII model). -/
def isIdentChar (c : Char) : Bool :=
  c.isAlpha || c.isDigit || c = '_'

/-- Value of one hexadecimal digit. -/
def hexVal (c : Char) : Nat :=
  if c.isDigit then c.toNat - '0'.toNat
  else if 'a' ≤ c ∧ c ≤ 'f' then c.toNat - 'a'.toNat + 10
  else if 'A' ≤ c ∧ c ≤ 'F' then c.toNat - 'A'.toNat + 10
  else 0

def isHexDigit (c : Char) : Bool :=
  c.isDigit || ('a' ≤ c && c ≤ 'f') || ('A' ≤ c && c ≤ 'F')

def isOctDigit (c : Char) : Bool :=
  '0' ≤ c && c ≤ '7'

def isBinDigit (c : Char) : Bool :=
  c = '0' || c = '1'

/-- Digits (already stripped of `_` separators) to a natural number. -/
def digitsToNat (base : Nat) (ds : List Char) : Nat :=
  ds.foldl (fun acc c => acc * base + hexVal c) 0

/-- Scan a run of digits of the given kind, tolerating `_` separators.
Returns the digit characters (separators removed) and the rest. -/
def scanDigits (isDig : Char → Bool) (cs : List Char) : List Char × List Char :=
  let raw := cs.takeWhile (fun c => isDig c || c = '_')
  (raw.filter (fun c => c ≠ '_'), cs.drop raw.length)

/-- Lex one numeric literal (the input starts with a digit, or a dot followed
by a digit).  Mirrors the host tokenizer: a number directly followed by an
identifier character (as in `0a`) is a syntax error. -/
def lexNumber (cs : List Char) : Except Unit (PTok × List Char) :=
  match cs with
  | '0' :: x :: rest =>
    if x = 'x' ∨ x = 'X' then lexPrefixed 16 isHexDigit rest
    else if x = 'o' ∨ x = 'O' then lexPrefixed 8 isOctDigit rest
    else if x = 'b' ∨ x = 'B' then lexPrefixed 2 isBinDigit rest
    else lexDecimal cs
  | _ => lexDecimal cs
where
  lexPrefixed (base : Nat) (isDig : Char → Bool) (rest : List Char) :
      Except Unit (PTok × List Char) :=
    let (ds, rest') := scanDigits isDig rest
    if ds.isEmpty then .error ()
    else if (rest'.headD ' ').isAlpha || (rest'.headD ' ').isDigit || rest'.headD ' ' = '_' then
      .error ()
    else .ok (.intTok (digitsToNat base ds), rest')
  lexDecimal (cs : List Char) : Except Unit (PTok × List Char) :=
    let (intDs, r1) := scanDigits Char.isDigit cs
    let (fracDs, hasFrac, r2) :=
      match r1 with
      | '.' :: r => let (ds, r') := scanDigits Char.isDigit r; (ds, true, r')
      | _ => ([], false, r1)
    if intDs.isEmpty ∧ fracDs.isEmpty then .error ()
    else do
      let (expVal, hasExp, r3) ←
        match r2 with
        | 'e' :: r | 'E' :: r =>
          let (sgn, r') :=
            match r with
            | '+' :: r' => ((1 : Int), r')
            | '-' :: r' => ((-1 : Int), r')
            | _ => ((1 : Int), r)
          let (ds, r'') := scanDigits Char.isDigit r'
          if ds.isEmpty then .error ()
          else .ok (sgn * (digitsToNat 10 ds : Nat), true, r'')
        | _ => .ok ((0 : Int), false, r2)
      let (isImag, r4) :=
        match r3 with
        | 'j' :: r | 'J' :: r => (true, r)
        | _ => (false, r3)
      if isIdentChar (r4.headD ' ') then .error ()
      else
        let mant : Nat := digitsToNat 10 (intDs ++ fracDs)
        let e : Int := expVal - fracDs.length
        let q : Rat :=
          if e ≥ 0 then (mant : Rat) * (10 : Rat) ^ e.toNat
          else (mant : Rat) / (10 : Rat) ^ (-e).toNat
        if isImag then .ok (.imagTok q, r4)
        else if hasFrac ∨ hasExp then .ok (.floatTok q, r4)
        else .ok (.intTok (mant : Int), r4)

/-- Lex a quoted string: scan to the closing quote, handling simple
backslash escapes; an unterminated string is a syntax error. -/
def lexString (fuel : Nat) (q : Char) (cs : List Char) (acc : List Char) :
    Except Unit (String × List Char) :=
  match fuel, cs with
  | 0, _ => .error ()
  | _ + 1, [] => .error ()
  | fuel + 1, c :: rest =>
    if c = q then .ok (String.mk acc.reverse, rest)
    else if c = '\\' then
      match rest with
      | [] => .error ()
      | d :: rest' =>
        if d = '\\' ∨ d = '\'' ∨ d = '"' then lexString fuel q rest' (d :: acc)
        else if d = 'n' then lexString fuel q rest' ('\n' :: acc)
        else if d = 't' then lexString fuel q rest' ('\t' :: acc)
        else lexString fuel q rest' (d :: '\\' :: acc)
    else lexString fuel q rest (c :: acc)

/-- The tokenizer loop; fuel is bounded by the input length since every
emitted token consumes at least one character. -/
def lexLoop (fuel : Nat) (cs : List Char) : Except Unit (List PTok) :=
  match fuel with
  | 0 => .error ()
  | fuel + 1 =>
    match cs with
    | [] => .ok []
    | c :: rest =>
      if c = ' ' ∨ c = '\t' ∨ c = '\n' ∨ c = '\r' then lexLoop fuel rest
      else if c = '(' then (PTok.lparen :: ·) <$> lexLoop fuel rest
      else if c = ')' then (PTok.rparen :: ·) <$> lexLoop fuel rest
      else if c = '[' then (PTok.lbrack :: ·) <$> lexLoop fuel rest
      else if c = ']' then (PTok.rbrack :: ·) <$> lexLoop fuel rest
      else if c = '{' then (PTok.lbrace :: ·) <$> lexLoop fuel rest
      else if c = '}' then (PTok.rbrace :: ·) <$> lexLoop fuel rest
      else if c = ',' then (PTok.comma :: ·) <$> lexLoop fuel rest
      else if c = ':' then (PTok.colon :: ·) <$> lexLoop fuel rest
      else if c = '+' then (PTok.plus :: ·) <$> lexLoop fuel rest
      else if c = '-' then (PTok.minus :: ·) <$> lexLoop fuel rest
      else if c = '=' then (PTok.assign :: ·) <$> lexLoop fuel rest
      else if c = '*' then
        match rest with
        | '*' :: rest' => (PTok.doublestar :: ·) <$> lexLoop fuel rest'
        | _ => (PTok.star :: ·) <$> lexLoop fuel rest
      else if c = '.' then
        match rest with
        | '.' :: '.' :: rest' => (PTok.dots :: ·) <$> lexLoop fuel rest'
        | d :: _ =>
          if d.isDigit then do
            let (tok, rest') ← lexNumber (c :: rest)
            (tok :: ·) <$> lexLoop fuel rest'
          else (PTok.dot :: ·) <$> lexLoop fuel rest
        | [] => (PTok.dot :: ·) <$> lexLoop fuel rest
      else if c.isDigit then do
        let (tok, rest') ← lexNumber (c :: rest)
        (tok :: ·) <$> lexLoop fuel rest'
      else if c = '\'' ∨ c = '"' then do
        let (s, rest') ← lexString (rest.length + 1) c rest []
        (PTok.strLit s :: ·) <$> lexLoop fuel rest'
      else if c.isAlpha ∨ c = '_' then
        let ident := String.mk (c :: rest.takeWhile isIdentChar)
        let rest' := rest.dropWhile isIdentChar
        if (ident = "b" ∨ ident = "B") ∧
            ((rest'.headD ' ') = '\'' ∨ (rest'.headD ' ') = '"') then do
          match rest' with
          | q :: rest'' => do
            let (s, rest''') ← lexString (rest''.length + 1) q rest'' []
            (PTok.bytesLit s :: ·) <$> lexLoop fuel rest'''
          | [] => .error ()
        else (PTok.name ident :: ·) <$> lexLoop fuel rest'
      else .error ()

/-- Tokenize a source string (model of the host tokenizer). -/
def pyTokenize (s : String) : Except Unit (List PTok) :=
  lexLoop (s.length + 1) s.data

/-- The abstract expression tree produced by the host parser, restricted to
the node kinds the evaluator distinguishes (`ast.Constant`, `ast.Name`,
`ast.Tuple`, `ast.List`, `ast.Set`, `ast.Dict`, `ast.Call`, `ast.BinOp`
with `Add`/`Sub`, `ast.UnaryOp` with `UAdd`/`USub`).  A `dict` key of `none`
is a `**` unpacking (Python stores `None` in `Dict.keys`); `hasKeywords`
records whether a call carries keyword arguments. -/
inductive Ast where
  | constant (v : PyVal)
  | name (id : String)
  | tup (elts : List Ast)
  | lst (elts : List Ast)
  | st (elts : List Ast)
  | dct (keys : List (Option Ast)) (values : List Ast)
  | call (func : Ast) (args : List Ast) (hasKeywords : Bool)
  | binop (left : Ast) (isAdd : Bool) (right : Ast)
  | unaryop (isUAdd : Bool) (operand : Ast)

mutual

/-- Parse a full expression: an additive chain of unary terms. -/
def pExpr : Nat → List PTok → Except Unit (Ast × List PTok)
  | 0, _ => .error ()
  | fuel + 1, ts => do
    let (e, ts') ← pUnary fuel ts
    pAddRest fuel e ts'

/-- Parse the `(('+' | '-') unary)*` continuation, left-associated. -/
def pAddRest : Nat → Ast → List PTok → Except Unit (Ast × List PTok)
  | 0, _, _ => .error ()
  | fuel + 1, acc, ts =>
    match ts with
    | .plus :: rest => do
      let (r, ts') ← pUnary fuel rest
      pAddRest fuel (.binop acc true r) ts'
    | .minus :: rest => do
      let (r, ts') ← pUnary fuel rest
      pAddRest fuel (.binop acc false r) ts'
    | _ => .ok (acc, ts)

/-- Parse a unary term: optional sign prefixes then a postfix expression. -/
def pUnary : Nat → List PTok → Except Unit (Ast × List PTok)
  | 0, _ => .error ()
  | fuel + 1, ts =>
    match ts with
    | .plus :: rest => do
      let (e, ts') ← pUnary fuel rest
      .ok (.unaryop true e, ts')
    | .minus :: rest => do
      let (e, ts') ← pUnary fuel rest
      .ok (.unaryop false e, ts')
    | _ => pPostfix fuel ts

/-- Parse an atom followed by call trailers. -/
def pPostfix : Nat → List PTok → Except Unit (Ast × List PTok)
  | 0, _ => .error ()
  | fuel + 1, ts => do
    let (a, ts') ← pAtom fuel ts
    pTrailers fuel a ts'

/-- Apply `(...)` call trailers to a parsed atom. -/
def pTrailers : Nat → Ast → List PTok → Except Unit (Ast × List PTok)
  | 0, _, _ => .error ()
  | fuel + 1, a, ts =>
    match ts with
    | .lparen :: rest => do
      let (args, hasKw, ts') ← pCallArgs fuel rest
      pTrailers fuel (.call a args hasKw) ts'
    | _ => .ok (a, ts)

/-- Parse a call argument list up to and including the closing
parenthesis. -/
def pCallArgs : Nat → List PTok → Except Unit (List Ast × Bool × List PTok)
  | 0, _ => .error ()
  | fuel + 1, ts =>
    match ts with
    | .rparen :: rest => .ok ([], false, rest)
    | _ => do
      let (arg, isKw, ts') ←
        match ts with
        | .name id :: .assign :: rest => do
          let (v, ts') ← pExpr fuel rest
          -- a keyword argument `id=v`; only its presence matters downstream
          pure ((Ast.name id, v).2, true, ts')
        | _ => do
          let (v, ts') ← pExpr fuel ts
          pure (v, false, ts')
      match ts' with
      | .comma :: rest => do
        let (args, hasKw, ts'') ← pCallArgs fuel rest
        if isKw then .ok (args, true, ts'')
        else .ok (arg :: args, hasKw, ts'')
      | .rparen :: rest =>
        if isKw then .ok ([], true, rest) else .ok ([arg], false, rest)
      | _ => .error ()

/-- Parse a comma-separated expression list terminated by `close`
(tolerating a trailing comma). -/
def pElts (close : PTok) : Nat → List PTok → Except Unit (List Ast × List PTok)
  | 0, _ => .error ()
  | fuel + 1, ts =>
    if ts.headD .dot = close then .ok ([], ts.tail)
    else do
      let (e, ts') ← pExpr fuel ts
      match ts' with
      | .comma :: rest => do
        let (es, ts'') ← pElts close fuel rest
        .ok (e :: es, ts'')
      | t :: rest =>
        if t = close then .ok ([e], rest) else .error ()
      | [] => .error ()

/-- Parse the dict items after the first `k: v` or `**e` item, up to `}`. -/
def pDictRest : Nat → List PTok → Except Unit (List (Option Ast) × List Ast × List PTok)
  | 0, _ => .error ()
  | fuel + 1, ts =>
    match ts with
    | .rbrace :: rest => .ok ([], [], rest)
    | .doublestar :: rest => do
      let (v, ts') ← pExpr fuel rest
      pDictRestStep fuel Option.none v ts'
    | _ => do
      let (k, ts') ← pExpr fuel ts
      match ts' with
      | .colon :: rest => do
        let (v, ts'') ← pExpr fuel rest
        pDictRestStep fuel (Option.some k) v ts''
      | _ => .error ()

/-- Handle the separator after one dict item. -/
def pDictRestStep : Nat → Option Ast → Ast → List PTok →
    Except Unit (List (Option Ast) × List Ast × List PTok)
  | 0, _, _, _ => .error ()
  | fuel + 1, k, v, ts =>
    match ts with
    | .comma :: rest => do
      let (ks, vs, ts') ← pDictRest fuel rest
      .ok (k :: ks, v :: vs, ts')
    | .rbrace :: rest => .ok ([k], [v], rest)
    | _ => .error ()

/-- Parse one atom. -/
def pAtom : Nat → List PTok → Except Unit (Ast × List PTok)
  | 0, _ => .error ()
  | fuel + 1, ts =>
    match ts with
    | .intTok n :: rest => .ok (.constant (.int n), rest)
    | .floatTok q :: rest => .ok (.constant (.float q), rest)
    | .imagTok q :: rest => .ok (.constant (.complex 0 q), rest)
    | .strLit s :: rest => .ok (.constant (.str s), rest)
    | .bytesLit s :: rest => .ok (.constant (.bytes s), rest)
    | .dots :: rest => .ok (.constant .ellipsis, rest)
    | .name id :: rest =>
      if id = "True" then .ok (.constant (.bool true), rest)
      else if id = "False" then .ok (.constant (.bool false), rest)
      else if id = "None" then .ok (.constant .none, rest)
      else .ok (.name id, rest)
    | .lparen :: rest =>
      (match rest with
      | .rparen :: rest' => .ok (.tup [], rest')
      | _ => do
        let (e, ts') ← pExpr fuel rest
        match ts' with
        | .rparen :: rest' => .ok (e, rest')
        | .comma :: rest' => do
          let (es, ts'') ← pElts .rparen fuel rest'
          .ok (.tup (e :: es), ts'')
        | _ => .error ())
    | .lbrack :: rest => do
      let (es, ts') ← pElts .rbrack fuel rest
      .ok (.lst es, ts')
    | .lbrace :: rest =>
      (match rest with
      | .rbrace :: rest' => .ok (.dct [] [], rest')
      | .doublestar :: rest' => do
        let (v, ts') ← pExpr fuel rest'
        let (ks, vs, ts'') ← pDictRestStep fuel Option.none v ts'
        .ok (.dct ks vs, ts'')
      | _ => do
        let (e, ts') ← pExpr fuel rest
        match ts' with
        | .colon :: rest' => do
          let (v, ts'') ← pExpr fuel rest'
          let (ks, vs, ts''') ← pDictRestStep fuel (Option.some e) v ts''
          .ok (.dct ks vs, ts''')
        | .comma :: rest' => do
          let (es, ts'') ← pElts .rbrace fuel rest'
          .ok (.st (e :: es), ts'')
        | .rbrace :: rest' => .ok (.st [e], rest')
        | _ => .error ())
    | _ => .error ()

end

/-- Model of the host expression parser `compile(source, "<string>", "eval",
PyCF_ONLY_AST)`: tokenize, parse a single expression, and require the whole
input to be consumed.  The fuel is a generous linear bound on the token
count; every nesting level consumes at least one token. -/
def pyParseExpr (s : String) : Except Unit Ast := do
  let toks ← pyTokenize s
  let (e, rest) ← pExpr (8 * (toks.length + 1) + 8) toks
  if rest.isEmpty then .ok e else .error ()

end Sugar

namespace Sugar

/-! # `convert` and the derived converters (`src/sugar/_eval.py`) -/

/-- Is this node an `ast.Constant`? -/
def Ast.isConst : Ast → Bool
  | .constant _ => true
  | _ => false

/-- Is this node an `ast.Constant` or `ast.UnaryOp`? -/
def Ast.isConstOrUnary : Ast → Bool
  | .constant _ => true
  | .unaryop _ _ => true
  | _ => false

/-- Fold a list of nodes (helper for the composite cases of `convert`). -/
def convertList (f : Ast → Except Unit PyVal) : List Ast → Except Unit (List PyVal)
  | [] => .ok []
  | a :: as => do
    let v ← f a
    let vs ← convertList f as
    .ok (v :: vs)

/-- `convert` from `src/sugar/_eval.py` (lines 26-144).  The source walks the
tree with an explicit node/value stack; the recursion here computes the same
value, with fuel standing in for the stack discipline (`convert`'s recursion
is structural in the tree, so any fuel at least the tree depth agrees with
the source).  A `break` in the source (malformed node) is the `ValueError`
modelled as `.error ()`. -/
def convert : Nat → Ast → Except Unit PyVal
  | 0, _ => .error ()
  | fuel + 1, node =>
    match node with
    | .constant v => .ok v
    | .name id => .ok (.str id)
    | .tup elts => .tuple <$> convertList (convert fuel) elts
    | .lst elts => .list <$> convertList (convert fuel) elts
    | .st elts => .set <$> convertList (convert fuel) elts
    | .call func args hasKw =>
      if (match func with | .name fid => fid = "set" | _ => false)
          && args.isEmpty && !hasKw then
        .ok (.set [])
      else .error ()
    | .dct keys values =>
      if keys.length ≠ values.length ∨ keys.any (·.isNone) then .error ()
      else do
        let ks ← convertList (convert fuel) (keys.filterMap id)
        let vs ← convertList (convert fuel) values
        .ok (.dict (ks.zip vs))
    | .binop l isAdd r =>
      if l.isConstOrUnary ∧ r.isConst then do
        let real ← convert fuel l
        let imag ← convert fuel r
        -- `real` must be an int or a float (a bool passes: it is an int
        -- subclass), `imag` must be a complex
        match real, imag with
        | .int n, .complex re im =>
          if isAdd then .ok (.complex ((n : Rat) + re) im)
          else .ok (.complex ((n : Rat) - re) (-im))
        | .float q, .complex re im =>
          if isAdd then .ok (.complex (q + re) im)
          else .ok (.complex (q - re) (-im))
        | .bool b, .complex re im =>
          let q : Rat := if b then 1 else 0
          if isAdd then .ok (.complex (q + re) im)
          else .ok (.complex (q - re) (-im))
        | _, _ => .error ()
      else .error ()
    | .unaryop isUAdd operand =>
      if operand.isConst then do
        let v ← convert fuel operand
        -- an explicit bool check precedes the numeric check in the source
        match v with
        | .bool _ => .error ()
        | .int n => if isUAdd then .ok (.int n) else .ok (.int (-n))
        | .float q => if isUAdd then .ok (.float q) else .ok (.float (-q))
        | .complex re im =>
          if isUAdd then .ok (.complex re im) else .ok (.complex (-re) (-im))
        | _ => .error ()
      else .error ()

/-- Error kind of `ext_eval`: the host parser's failure (`SyntaxError`) or a
malformed node detected by `convert` (`ValueError`). -/
inductive EvalErr where
  | syntaxErr
  | valueErr
  deriving DecidableEq, Repr

/-- `ext_eval` from `src/sugar/_eval.py` (lines 147-155): parse, then fold.
The fuel passed to `convert` exceeds any tree depth reachable from the
source string, since each nesting level consumes at least one character. -/
def ext_eval (s : String) : Except EvalErr PyVal :=
  match pyParseExpr s with
  | .error _ => .error .syntaxErr
  | .ok ast =>
    match convert (s.length + 1) ast with
    | .error _ => .error .valueErr
    | .ok v => .ok v

/-- `any_` from `src/sugar/_eval.py` (lines 219-226): like `ext_eval` but a
`SyntaxError` returns the raw string unmodified; a `ValueError` from
`convert` still propagates. -/
def any_ (s : String) : Except Unit PyVal :=
  match pyParseExpr s with
  | .error _ => .ok (.str s)
  | .ok ast => convert (s.length + 1) ast

/-- ASCII model of Python `str.lower`. -/
def pyLower (s : String) : String :=
  String.mk (s.data.map Char.toLower)

/-- `TRUE_VALS` from `src/sugar/_eval.py`. -/
def TRUE_VALS : List String := ["true", "t"]

/-- `FALSE_VALS` from `src/sugar/_eval.py`. -/
def FALSE_VALS : List String := ["false", "f"]

/-- `NONE_VALS` from `src/sugar/_eval.py` (line 209). -/
def NONE_VALS : List String := ["none"]

/-- `none` from `src/sugar/_eval.py` (lines 212-216), the `NoneType`
converter (renamed: `none` would clash with `Option.none`).  Note the
source tests membership in `TRUE_VALS`, not `NONE_VALS`. -/
def none_ (x : String) : Except Unit PyVal :=
  let y := pyLower x
  if y ∈ TRUE_VALS then .ok .none else .error ()

/-- `bool_` from `src/sugar/_eval.py` (lines 199-206). -/
def bool_ (x : String) : Except Unit PyVal :=
  let y := pyLower x
  if y ∈ TRUE_VALS then .ok (.bool true)
  else if y ∈ FALSE_VALS then .ok (.bool false)
  else .error ()

end Sugar

namespace Sugar

/-! # Part 3: the type system (`src/sugar/_action.py`)

Type descriptions are modelled as a closed syntax: primitives, the `None`
annotation, `typing.Any`, the ellipsis marker, `Annotated` wrappers, unions,
parametrized (or bare) generics over the concrete container origins the
claims exercise, and named aliases (`TypeAliasType`).  A self-referential
alias such as `type C = list[C] | int` is a cyclic object graph in the
source; here the cycle is broken by referencing aliases by name through an
environment, and the identity set `ctx` of `_resolve_type` — which in the
source holds `id(tp)` of every visited node — tracks the alias names, the
only node identities that can recur. -/

/-- The primitive types of the `PRIMITIVES` / `ACTIONS` tables. -/
inductive PrimTy where
  | strT | intT | floatT | complexT | boolT | bytesT | noneT
  deriving DecidableEq, Repr

/-- Concrete container origin classes exercised by the engine. -/
inductive OriginTy where
  | listO | tupleO | setO | dictO
  deriving DecidableEq, Repr

/-- An abstract type description (the argument to `resolve_type` /
`ext_isinstance` / `_auto`). -/
inductive TypeDesc where
  | any
  | prim (p : PrimTy)
  | noneLit
  | ellip
  | alias (a : String)
  | annotated (inner : TypeDesc)
  | union (args : List TypeDesc)
  | generic (o : OriginTy) (args : Option (List TypeDesc))

mutual

/-- Structural equality of type descriptions (Python `==` on type objects,
which compares unions and parametrized generics componentwise). -/
def TypeDesc.beq : TypeDesc → TypeDesc → Bool
  | .any, .any => true
  | .prim p, .prim q => p == q
  | .noneLit, .noneLit => true
  | .ellip, .ellip => true
  | .alias a, .alias b => a == b
  | .annotated x, .annotated y => TypeDesc.beq x y
  | .union xs, .union ys => TypeDesc.beqList xs ys
  | .generic o Option.none, .generic o' Option.none => o == o'
  | .generic o (Option.some xs), .generic o' (Option.some ys) =>
      o == o' && TypeDesc.beqList xs ys
  | _, _ => false

def TypeDesc.beqList : List TypeDesc → List TypeDesc → Bool
  | [], [] => true
  | x :: xs, y :: ys => TypeDesc.beq x y && TypeDesc.beqList xs ys
  | _, _ => false

end

/-- Is this description `typing.Any`?  (Python `Any in args` / `tp is Any`
compare by object identity.) -/
def isAnyTD : TypeDesc → Bool
  | .any => true
  | _ => false

/-- Is this description a union node? -/
def isUnionTD : TypeDesc → Bool
  | .union _ => true
  | _ => false

/-- The member list of a union, or the singleton of any other description
(how Python's `X | Y` collects operands). -/
def unionMembers : TypeDesc → List TypeDesc
  | .union xs => xs
  | t => [t]

/-- Keep-first deduplication by `TypeDesc.beq` (the `==`-based filtering the
host union constructor performs); `seen` holds the already-kept elements. -/
def dedupAux : List TypeDesc → List TypeDesc → List TypeDesc
  | [], _ => []
  | x :: xs, seen =>
    if seen.any (fun y => TypeDesc.beq y x) then dedupAux xs seen
    else x :: dedupAux xs (x :: seen)

def dedupTD (xs : List TypeDesc) : List TypeDesc :=
  dedupAux xs []

/-- Python `X | Y` on type objects (`operator.or_` in `_resolve_type`):
flatten both operands' members, deduplicate keeping first occurrences, and
collapse a singleton back to the bare type. -/
def mkOr (a b : TypeDesc) : TypeDesc :=
  match dedupTD (unionMembers a ++ unionMembers b) with
  | [x] => x
  | ms => .union ms

/-- Flatness: no direct member of (the union view of) `t` is itself a
union — the "non-nested" shape the specification ascribes to resolved
unions. -/
def IsFlat (t : TypeDesc) : Prop :=
  ∀ m ∈ unionMembers t, isUnionTD m = false

/-- The alias environment: `TypeAliasType` name to underlying definition. -/
abbrev TypeEnv := List (String × TypeDesc)

/-- Resolution failures: fuel exhaustion (the modelled stand-in for
non-termination), an alias missing from the environment, and the
`TypeError`s the source raises. -/
inductive ResolveErr where
  | fuelErr
  | lookupErr
  | typeErr
  deriving DecidableEq, Repr

/-- Resolve each element in order, threading the visited-identity state
exactly as the source's shared mutable `ctx` set is threaded through the
list comprehension `[_resolve_type(arg, ctx) for arg in args]`. -/
def resolveListWith (f : TypeDesc → List String → Except ResolveErr (TypeDesc × List String)) :
    List TypeDesc → List String → Except ResolveErr (List TypeDesc × List String)
  | [], ctx => .ok ([], ctx)
  | t :: ts, ctx => do
    let (r, ctx') ← f t ctx
    let (rs, ctx'') ← resolveListWith f ts ctx'
    .ok (r :: rs, ctx'')

/-- `_resolve_type` from `src/sugar/_action.py` (lines 374-412), with fuel
standing in for the unbounded recursion (a `.ok` result at some fuel is the
embedding of "the source call terminates").  `ctx` is the per-call identity
set: an alias already in `ctx` is returned unresolved (the cycle guard);
every other node kind of this model is freshly constructed and cannot
recur. -/
def resolveTypeCtx (env : TypeEnv) :
    Nat → TypeDesc → List String → Except ResolveErr (TypeDesc × List String)
  | 0, _, _ => .error .fuelErr
  | fuel + 1, tp, ctx =>
    match tp with
    | .alias a =>
      if a ∈ ctx then .ok (tp, ctx)
      else
        match env.lookup a with
        | Option.none => .error .lookupErr
        | Option.some v => resolveTypeCtx env fuel v (a :: ctx)
    | .noneLit => .ok (.prim .noneT, ctx)
    | .annotated inner => resolveTypeCtx env fuel inner ctx
    | .union args => do
      let (rs, ctx') ← resolveListWith (resolveTypeCtx env fuel) args ctx
      if rs.any isAnyTD then .ok (.any, ctx')
      else
        match rs with
        | [] => .error .typeErr
        | r :: rest => .ok (rest.foldl mkOr r, ctx')
    | .generic o (Option.some args) => do
      let (rs, ctx') ← resolveListWith (resolveTypeCtx env fuel) args ctx
      .ok (.generic o (Option.some rs), ctx')
    | .generic o Option.none => .ok (.generic o Option.none, ctx)
    | .prim p => .ok (.prim p, ctx)
    | .any => .ok (.any, ctx)
    | .ellip => .ok (.ellip, ctx)

/-- `resolve_type` from `src/sugar/_action.py` (lines 370-371): resolve with
a fresh identity set.  The fuel bound is generous for every description in
this development; resolution consumes fuel only along alias unfolding and
structural descent. -/
def resolve_type (env : TypeEnv) (tp : TypeDesc) : Except ResolveErr TypeDesc :=
  (resolveTypeCtx env 1000 tp []).map (·.1)

/-! ## The dynamic instance check `ext_isinstance` -/

/-- Python `isinstance(obj, p)` for a primitive class; a bool is an instance
of `int` (subclass), while an int is not an instance of `float`. -/
def primInstance : PyVal → PrimTy → Bool
  | .str _, .strT => true
  | .int _, .intT => true
  | .bool _, .intT => true
  | .float _, .floatT => true
  | .complex _ _, .complexT => true
  | .bool _, .boolT => true
  | .bytes _, .bytesT => true
  | .none, .noneT => true
  | _, _ => false

/-- Python `isinstance(obj, origin)` for a container origin class. -/
def originInstance : PyVal → OriginTy → Bool
  | .list _, .listO => true
  | .tuple _, .tupleO => true
  | .set _, .setO => true
  | .dict _, .dictO => true
  | _, _ => false

/-- Short-circuiting `all` over a fallible predicate (Python `all(gen)` with
exceptions propagating out of the generator). -/
def allExcept (f : α → Except Unit Bool) : List α → Except Unit Bool
  | [] => .ok true
  | x :: xs => do
    if (← f x) then allExcept f xs else .ok false

/-- Short-circuiting `any` over a fallible predicate. -/
def anyExcept (f : α → Except Unit Bool) : List α → Except Unit Bool
  | [] => .ok false
  | x :: xs => do
    if (← f x) then .ok true else anyExcept f xs

/-- `ext_isinstance` from `src/sugar/_action.py` (lines 310-367): the
structural instance check.  `.error ()` is a raised `TypeError` (argument
count mismatches, unsupported descriptions); fuel models the unbounded
recursion through alias values, which need not terminate in the source
(e.g. `type D = D`). -/
def ext_isinstance (env : TypeEnv) : Nat → PyVal → TypeDesc → Except Unit Bool
  | 0, _, _ => .error ()
  | fuel + 1, obj, tp =>
    match tp with
    | .any => .ok true
    | .alias a =>
      match env.lookup a with
      | Option.none => .error ()
      | Option.some v => ext_isinstance env fuel obj v
    | .union xs => anyExcept (fun t => ext_isinstance env fuel obj t) xs
    | .prim p => .ok (primInstance obj p)
    | .noneLit => .error ()
    | .ellip => .error ()
    | .annotated _ => .error ()
    | .generic o Option.none => .ok (originInstance obj o)
    | .generic o (Option.some args) =>
      if !originInstance obj o then .ok false
      else
        match obj with
        | .tuple xs =>
          (match args with
          | [t, .ellip] => allExcept (fun sub => ext_isinstance env fuel sub t) xs
          | _ =>
            if args.length ≠ xs.length then .error ()
            else allExcept (fun p => ext_isinstance env fuel p.1 p.2) (xs.zip args))
        | .dict items =>
          (match args with
          | [] => .ok true
          | [kt, vt] =>
            allExcept
              (fun p => do
                if (← ext_isinstance env fuel p.1 kt) then ext_isinstance env fuel p.2 vt
                else .ok false)
              items
          | _ => .error ())
        | .list xs | .set xs =>
          (match args with
          | [] => .ok true
          | [t] => allExcept (fun sub => ext_isinstance env fuel sub t) xs
          | _ => .error ())
        | _ => .error ()

/-! ## The remaining primitive converters (`src/sugar/_eval.py` and the host
`int`/`float`/`complex` constructors used by the `PRIMITIVES`/`ACTIONS`
tables) -/

/-- `str_` from `src/sugar/_eval.py` (lines 163-176): unwrap a literal
quoted string, otherwise pass the raw text through.  Total. -/
def str_ (x : String) : Except Unit PyVal :=
  .ok (.str (match pyParseExpr x with
    | .ok (.constant (.str s)) => s
    | _ => x))

/-- `bytes_` from `src/sugar/_eval.py` (lines 179-192): unwrap a literal
byte string, otherwise UTF-8 encode the raw text.  Total. -/
def bytes_ (x : String) : Except Unit PyVal :=
  .ok (.bytes (match pyParseExpr x with
    | .ok (.constant (.bytes b)) => b
    | _ => x))

/-- Python whitespace strip. -/
def pyStrip (cs : List Char) : List Char :=
  let ws := fun c => c = ' ' ∨ c = '\t' ∨ c = '\n' ∨ c = '\r'
  ((cs.dropWhile ws).reverse.dropWhile ws).reverse

/-- `int_` from `src/sugar/_eval.py` (lines 158-160), i.e. the host
`int(x, 0)`: auto base detection from a `0x`/`0o`/`0b` prefix, `_`
separators, optional sign and surrounding whitespace, and no leading zeros
in decimal numerals. -/
def int_ (x : String) : Except Unit PyVal := do
  let cs := pyStrip x.data
  let (sgn, cs) :=
    match cs with
    | '+' :: r => ((1 : Int), r)
    | '-' :: r => ((-1 : Int), r)
    | _ => ((1 : Int), cs)
  match cs with
  | '0' :: p :: rest =>
    if p = 'x' ∨ p = 'X' then intDigits sgn 16 isHexDigit rest
    else if p = 'o' ∨ p = 'O' then intDigits sgn 8 isOctDigit rest
    else if p = 'b' ∨ p = 'B' then intDigits sgn 2 isBinDigit rest
    else intDecimal sgn cs
  | _ => intDecimal sgn cs
where
  intDigits (sgn : Int) (base : Nat) (isDig : Char → Bool) (cs : List Char) :
      Except Unit PyVal :=
    let (ds, rest) := scanDigits isDig cs
    if ds.isEmpty ∨ !rest.isEmpty then .error ()
    else .ok (.int (sgn * (digitsToNat base ds : Nat)))
  intDecimal (sgn : Int) (cs : List Char) : Except Unit PyVal :=
    let (ds, rest) := scanDigits Char.isDigit cs
    if ds.isEmpty ∨ !rest.isEmpty then .error ()
    else if ds.headD '0' = '0' ∧ ds.any (fun c => c ≠ '0') then .error ()
    else .ok (.int (sgn * (digitsToNat 10 ds : Nat)))

/-- Parse an unsigned decimal numeral with optional fraction and exponent;
returns its value and the unconsumed rest.  Shared by the models of the
host `float` and `complex` constructors. -/
def parseUnsignedNum (cs : List Char) : Option (Rat × List Char) :=
  let (intDs, r1) := scanDigits Char.isDigit cs
  let (fracDs, r2) :=
    match r1 with
    | '.' :: r => scanDigits Char.isDigit r
    | _ => ([], r1)
  if intDs.isEmpty ∧ fracDs.isEmpty then Option.none
  else
    let (expVal, r3) :=
      match r2 with
      | 'e' :: r | 'E' :: r =>
        (match r with
        | '+' :: r' =>
          let (ds, r'') := scanDigits Char.isDigit r'
          if ds.isEmpty then Option.none else Option.some ((digitsToNat 10 ds : Int), r'')
        | '-' :: r' =>
          let (ds, r'') := scanDigits Char.isDigit r'
          if ds.isEmpty then Option.none
          else Option.some (-(digitsToNat 10 ds : Int), r'')
        | _ =>
          let (ds, r'') := scanDigits Char.isDigit r
          if ds.isEmpty then Option.none
          else Option.some ((digitsToNat 10 ds : Int), r'')).getD ((0 : Int), r2)
      | _ => ((0 : Int), r2)
    let mant : Nat := digitsToNat 10 (intDs ++ fracDs)
    let e : Int := expVal - fracDs.length
    let q : Rat :=
      if e ≥ 0 then (mant : Rat) * (10 : Rat) ^ e.toNat
      else (mant : Rat) / (10 : Rat) ^ (-e).toNat
    Option.some (q, r3)

/-- Model of the host `float(x)` constructor (external to the repository),
registered for `float` in the converter tables: sign, decimal numeral with
optional fraction and exponent, surrounding whitespace.  The non-finite
spellings (`inf`, `nan`) are not modelled — no finite rational represents
them and no verified property touches them. -/
def pyFloat (x : String) : Except Unit PyVal := do
  let cs := pyStrip x.data
  let (sgn, cs) :=
    match cs with
    | '+' :: r => ((1 : Rat), r)
    | '-' :: r => ((-1 : Rat), r)
    | _ => ((1 : Rat), cs)
  match parseUnsignedNum cs with
  | Option.some (q, []) => .ok (.float (sgn * q))
  | _ => .error ()

/-- Model of the host `complex(x)` constructor (external to the
repository), registered for `complex` in the converter tables: the
`real[±imag]j` grammar with optional parentheses, where a bare `j` after a
sign means `1j`. -/
def pyComplex (x : String) : Except Unit PyVal := do
  let cs := pyStrip x.data
  let cs :=
    match cs with
    | '(' :: r => if r.getLast? = Option.some ')' then r.dropLast else cs
    | _ => cs
  let (s1, cs) :=
    match cs with
    | '+' :: r => ((1 : Rat), r)
    | '-' :: r => ((-1 : Rat), r)
    | _ => ((1 : Rat), cs)
  match cs with
  | ['j'] => .ok (.complex 0 s1)
  | ['J'] => .ok (.complex 0 s1)
  | _ =>
    match parseUnsignedNum cs with
    | Option.none => .error ()
    | Option.some (q1, rest) =>
      match rest with
      | [] => .ok (.complex (s1 * q1) 0)
      | ['j'] => .ok (.complex 0 (s1 * q1))
      | ['J'] => .ok (.complex 0 (s1 * q1))
      | c :: rest' =>
        if c = '+' ∨ c = '-' then
          let s2 : Rat := if c = '+' then 1 else -1
          match rest' with
          | ['j'] => .ok (.complex (s1 * q1) s2)
          | ['J'] => .ok (.complex (s1 * q1) s2)
          | _ =>
            match parseUnsignedNum rest' with
            | Option.some (q2, ['j']) => .ok (.complex (s1 * q1) (s2 * q2))
            | Option.some (q2, ['J']) => .ok (.complex (s1 * q1) (s2 * q2))
            | _ => .error ()
        else .error ()

/-! ## Actions (`src/sugar/_action.py`, classes `Converter`, `Build`,
`Record`, `Store`) -/

/-- `KeywordToken` from `src/sugar/_action.py`: all raw words supplied under
one or more occurrences of a named flag, and the occurrence count. -/
structure KeywordTokenB where
  dest : String
  value : List String
  count : Nat
  deriving Repr

/-- An action: a conversion strategy with a diagnostic name and the two
capabilities `call_positional` (applied to a `PositionalToken`, here the
pair of destination and raw word) and `call_keyword`.  A raised
`SugarError` is the `.error` message. -/
structure ActionB where
  name : String
  callPositional : String × String → Except String PyVal
  callKeyword : KeywordTokenB → Except String PyVal

/-- `error_expected_n` from `src/sugar/_action.py` (lines 281-285). -/
def error_expected_n (dest : String) (exp n : Nat) (name : String) : String :=
  if name ≠ "" then
    pyRepr dest ++ " expected " ++ toString exp ++ " argument for " ++ name
      ++ ", but got " ++ toString n
  else
    pyRepr dest ++ " expected " ++ toString exp ++ " argument, but got " ++ toString n

/-- `error_invalid_value` from `src/sugar/_action.py` (lines 288-289). -/
def error_invalid_value (dest name val : String) : String :=
  pyRepr dest ++ " got invalid " ++ name ++ " value " ++ pyRepr val

/-- `Converter._call`: apply a converter function, wrapping any exception
into a structured `SugarError` naming destination, action and raw value. -/
def convCall (func : String → Except Unit PyVal) (name dest val : String) :
    Except String PyVal :=
  match func val with
  | .ok v => .ok v
  | .error _ => .error (error_invalid_value dest name val)

/-- Fallible map (Python list comprehension with exceptions propagating). -/
def mapMExcept (f : α → Except ε β) : List α → Except ε (List β)
  | [] => .ok []
  | x :: xs => do
    let y ← f x
    let ys ← mapMExcept f xs
    .ok (y :: ys)

/-- The `Converter` action: a single conversion; the keyword form requires
exactly one supplied value. -/
def ConverterB (func : String → Except Unit PyVal) (name : String) : ActionB where
  name := name
  callPositional := fun t => convCall func name t.1 t.2
  callKeyword := fun t =>
    if t.value.length ≠ 1 then .error (error_expected_n t.dest 1 t.value.length name)
    else convCall func name t.dest (t.value.headD "")

/-- The `Build` action: convert each raw value through one element
converter and fold through the collection constructor. -/
def BuildB (coll : List PyVal → PyVal) (elem func : String → Except Unit PyVal)
    (name : String) : ActionB where
  name := name
  callPositional := fun t => convCall func name t.1 t.2
  callKeyword := fun t => do
    let vs ← mapMExcept (fun val => convCall elem name t.dest val) t.value
    .ok (coll vs)

/-- The `Record` action (`src/sugar/_action.py` lines 137-152): one
converter per position; `call_keyword` zips converters with supplied
values, so conversion stops at the shorter of the two lists. -/
def RecordB (coll : List PyVal → PyVal) (elem : List (String → Except Unit PyVal))
    (func : String → Except Unit PyVal) (name : String) : ActionB where
  name := name
  callPositional := fun t => convCall func name t.1 t.2
  callKeyword := fun t => do
    let vs ← mapMExcept (fun p => convCall p.1 name t.dest p.2) (elem.zip t.value)
    .ok (coll vs)

/-- The `Store` action: keyword-only, returns a fixed constant (the warning
on extra supplied values is not an exception); the positional form raises. -/
def StoreB (constant : PyVal) (name : String) : ActionB where
  name := name
  callPositional := fun _ =>
    .error "Store can only be called with keyword arguments"
  callKeyword := fun _ => .ok constant

/-! ## The action deriver `_auto` -/

/-- `__name__` of a container origin class. -/
def originName : OriginTy → String
  | .listO => "list"
  | .tupleO => "tuple"
  | .setO => "set"
  | .dictO => "dict"

/-- Join with a separator (display only). -/
def joinSep (sep : String) : List String → String
  | [] => ""
  | [x] => x
  | x :: xs => x :: xs.map (fun y => sep ++ y) |>.foldl (· ++ ·) ""

mutual

/-- Python `str(tp)` of a type description (display only). -/
def typeStr : TypeDesc → String
  | .any => "typing.Any"
  | .prim .strT => "str"
  | .prim .intT => "int"
  | .prim .floatT => "float"
  | .prim .complexT => "complex"
  | .prim .boolT => "bool"
  | .prim .bytesT => "bytes"
  | .prim .noneT => "NoneType"
  | .noneLit => "None"
  | .ellip => "Ellipsis"
  | .alias a => a
  | .annotated t => "Annotated[" ++ typeStr t ++ "]"
  | .union xs => joinSep " | " (typeStrList xs)
  | .generic o Option.none => originName o
  | .generic o (Option.some xs) =>
      originName o ++ "[" ++ joinSep ", " (typeStrList xs) ++ "]"

def typeStrList : List TypeDesc → List String
  | [] => []
  | t :: ts => typeStr t :: typeStrList ts

end

/-- `make_type` from `src/sugar/_action.py` (lines 296-307), including its
`@cache_from_mapping(PRIMITIVES)` decoration: for one of the eight
registered primitive keys return the registered converter, otherwise build
the generated type-checking parse function (parse through the `any` path,
then validate with `ext_isinstance`; a mismatch or an instance-check
`TypeError` is the raised exception). -/
def make_type (env : TypeEnv) (tp : TypeDesc) : String → Except Unit PyVal :=
  match tp with
  | .prim .strT => str_
  | .prim .intT => int_
  | .prim .floatT => pyFloat
  | .prim .complexT => pyComplex
  | .prim .boolT => bool_
  | .prim .bytesT => bytes_
  | .prim .noneT => none_
  | .any => any_
  | _ => fun x => do
    let y ← any_ x
    match ext_isinstance env 1000 y tp with
    | .ok true => .ok y
    | _ => .error ()

/-- The diagnostic name attached to `make_type tp` (`tp.__name__` for a
class, `str(tp)` otherwise; the eight cached converters carry their own
`__name__`). -/
def make_type_name : TypeDesc → String
  | .prim .strT => "str"
  | .prim .intT => "int"
  | .prim .floatT => "float"
  | .prim .complexT => "complex"
  | .prim .boolT => "bool"
  | .prim .bytesT => "bytes"
  | .prim .noneT => "none"
  | .any => "any"
  | .generic o Option.none => originName o
  | tp => typeStr tp

/-- The pre-registered `ACTIONS` cache from `src/sugar/_action.py`
(lines 226-235). -/
def lookupActions : TypeDesc → Option ActionB
  | .prim .strT => Option.some (ConverterB str_ "str")
  | .prim .intT => Option.some (ConverterB int_ "int")
  | .prim .floatT => Option.some (ConverterB pyFloat "float")
  | .prim .complexT => Option.some (ConverterB pyComplex "complex")
  | .prim .boolT => Option.some (ConverterB bool_ "bool")
  | .prim .bytesT => Option.some (ConverterB bytes_ "bytes")
  | .prim .noneT => Option.some (StoreB .none "")
  | .any => Option.some (ConverterB any_ "any")
  | _ => Option.none

/-- The collection constructor used by a `Build` for a given origin.  A
mapping origin never reaches `Build` (`_auto` handles `Mapping` before the
`Collection` branch), so the `dict` row is vacuous. -/
def collFor : OriginTy → List PyVal → PyVal
  | .listO => .list
  | .tupleO => .tuple
  | .setO => .set
  | .dictO => fun _ => .dict []

/-- `_auto` from `src/sugar/_action.py` (lines 419-462), including its
`@cache_from_mapping(ACTIONS)` decoration, applied to an already resolved
description: a union becomes a post-hoc validating `Converter`; a tuple
subclass becomes `Build` (bare or homogeneous-variadic) or `Record`
(fixed-arity); a mapping falls through to the plain `Converter`; another
collection becomes `Build` over its element converter; everything else a
plain `Converter`.  `.error` is a raised `TypeError`. -/
def autoDerive (env : TypeEnv) (tp : TypeDesc) : Except String ActionB :=
  match lookupActions tp with
  | Option.some a => .ok a
  | Option.none =>
    match tp with
    | .union _ => .ok (ConverterB (make_type env tp) (make_type_name tp))
    | .generic o argsOpt =>
      if o = .tupleO then
        match argsOpt with
        | Option.none =>
          .ok (BuildB .tuple any_ (make_type env tp) (make_type_name tp))
        | Option.some args =>
          match args with
          | [t, .ellip] =>
            .ok (BuildB .tuple (make_type env t) (make_type env tp) (make_type_name tp))
          | _ =>
            .ok (RecordB .tuple (args.map (make_type env)) (make_type env tp)
              (make_type_name tp))
      else if o = .dictO then
        .ok (ConverterB (make_type env tp) (make_type_name tp))
      else
        match argsOpt with
        | Option.none =>
          .ok (BuildB (collFor o) any_ (make_type env tp) (make_type_name tp))
        | Option.some [t] =>
          .ok (BuildB (collFor o) (make_type env t) (make_type env tp) (make_type_name tp))
        | Option.some _ =>
          .error ("expected 1 type parameter for " ++ typeStr tp)
    | .alias a => .error (a ++ " is not a class")
    | .annotated _ => .error (typeStr tp ++ " is not a class")
    | .ellip => .error ("Ellipsis is not a class")
    | .noneLit => .error ("None is not a class")
    | _ => .ok (ConverterB (make_type env tp) (make_type_name tp))

/-- `auto` from `src/sugar/_action.py` (lines 415-416): resolve, then
derive. -/
def auto (env : TypeEnv) (tp : TypeDesc) : Except String ActionB := do
  let r ← (resolve_type env tp).mapError (fun _ => "resolution failed")
  autoDerive env r

/-- The alias environment of `type C = list[C] | int`: the alias `C`
appears inside its own definition (in the source this is a cyclic object
graph; see the tests' `type A = list[A] | int`). -/
def envC : TypeEnv :=
  [("C", .union [.generic .listO (Option.some [.alias ("C")]), .prim .intT])]

end Sugar

namespace Sugar

/-! # Part 4: the binding resolver (`src/sugar/_parser.py`, class
`ArgumentParser`)

Specs are held in insertion-ordered association lists (Python dicts);
`MISSING` is the `.missing` value of `RVal`; a raised `SugarError` during
binding is an `.errorRes` (its `__notes__` list attached), `SugarExit` an
`.exitRes` that also records which magic `Event` actions were invoked, in
order; a normal return is `.okRes args kwargs`. -/

/-- A bound value: the `MISSING` sentinel or an actual value. -/
inductive RVal where
  | missing
  | val (v : PyVal)

/-- Is this value the `MISSING` sentinel? -/
def RVal.isMissing : RVal → Bool
  | .missing => true
  | .val _ => false

/-- A parser-level action over bound values. -/
structure ActionP where
  callPositional : String × String → Except String RVal
  callKeyword : KeywordTokenB → Except String RVal

/-- `ArgumentSpec` from `src/sugar/_spec.py`: names (first canonical),
action, help, default (possibly `MISSING`). -/
structure SpecP where
  names : List String
  action : ActionP
  help : String
  default : RVal

/-- `MagicSpec` from `src/sugar/_spec.py` (its `Event` callback is a side
effect; invocation is recorded by destination in `.exitRes`). -/
structure MagicSpecP where
  names : List String
  help : String

/-- The group-name constants of `src/sugar/_parser.py` (lines 39-45). -/
def POSITIONAL_ONLY : String := "Positional-only"

def POSITIONAL_OR_KEYWORD : String := "Positional or keyword"

def VAR_POSITIONAL : String := "Variadic positional"

def KEYWORD_ONLY : String := "Keyword-only"

def VAR_KEYWORD : String := "Variadic keyword"

def MAGIC : String := "Magic"

/-- The state of a fully registered `ArgumentParser`: the name-to-dest and
dest-to-group maps and the per-group spec tables (`_pos_only_specs`,
`_pos_or_kw_specs`, `_kw_only_specs`, `_var_pos_spec`, `_var_kw_spec`,
`_magic_specs`). -/
structure ParserP where
  nameToDest : List (String × String)
  destToGroup : List (String × String)
  magicSpecs : List (String × MagicSpecP)
  posOnlySpecs : List (String × SpecP)
  posOrKwSpecs : List (String × SpecP)
  kwOnlySpecs : List (String × SpecP)
  varPosSpec : Option (String × SpecP)
  varKwSpec : Option (String × SpecP)

/-- The output of `_make_tokens_by_group`: one token map per group of
`ArgumentParser._groups`, plus the unknown bucket (`group_tokens[None]`).
Tokens whose destination belongs to the variadic groups (absent from
`_groups`) land in the unknown bucket via `group_tokens.get(group,
unknown_tokens)`. -/
structure GroupTokens where
  posOnly : List (String × KeywordTokenB)
  posOrKw : List (String × KeywordTokenB)
  kwOnly : List (String × KeywordTokenB)
  magic : List (String × KeywordTokenB)
  unknown : List (String × KeywordTokenB)

/-- Merge one named value group into a token map: a repeated destination
extends the existing token's values and increments its count, keeping the
first-seen position; a new destination is appended. -/
def addTok : List (String × KeywordTokenB) → String → List String →
    List (String × KeywordTokenB)
  | [], dest, val => [(dest, ⟨dest, val, 1⟩)]
  | (d, t) :: rest, dest, val =>
    if d = dest then (d, ⟨t.dest, t.value ++ val, t.count + 1⟩) :: rest
    else (d, t) :: addTok rest dest val

/-- Routing of a registered group name to its token map (the
`group_tokens.get(group, unknown_tokens)` lookup). -/
inductive TargetG where
  | posOnlyT | posOrKwT | kwOnlyT | magicT | unknownT
  deriving DecidableEq

def groupTarget (g : String) : TargetG :=
  if g = POSITIONAL_ONLY then .posOnlyT
  else if g = POSITIONAL_OR_KEYWORD then .posOrKwT
  else if g = KEYWORD_ONLY then .kwOnlyT
  else if g = MAGIC then .magicT
  else .unknownT

/-- `BaseParser._make_tokens_by_group` from `src/sugar/_parser.py`
(lines 371-399): resolve each supplied name to its destination and group,
sending unrecognized names (and variadic-group destinations) to the
unknown bucket, merging repeated occurrences. -/
def makeTokensByGroup (p : ParserP) (named : NamedVals) : GroupTokens :=
  named.foldl
    (fun gt nv =>
      match List.lookup nv.1 p.nameToDest with
      | Option.none => { gt with unknown := addTok gt.unknown nv.1 nv.2 }
      | Option.some dest =>
        match groupTarget ((List.lookup dest p.destToGroup).getD "") with
        | .posOnlyT => { gt with posOnly := addTok gt.posOnly dest nv.2 }
        | .posOrKwT => { gt with posOrKw := addTok gt.posOrKw dest nv.2 }
        | .kwOnlyT => { gt with kwOnly := addTok gt.kwOnly dest nv.2 }
        | .magicT => { gt with magic := addTok gt.magic dest nv.2 }
        | .unknownT => { gt with unknown := addTok gt.unknown dest nv.2 })
    ⟨[], [], [], [], []⟩

/-- `join_oxford_comma` from `src/sugar/_utils.py` (lines 195-205). -/
def join_oxford_comma (items : List String) (conj : String) : String :=
  let its := items.map pyRepr
  match its with
  | [] => ""
  | [x] => x
  | [x, y] => x ++ " " ++ conj ++ " " ++ y
  | _ => joinSep ", " (its.dropLast ++ [conj ++ " " ++ its.getLastD ""])

/-! ## The fuzzy-match suggestion (`did_you_mean`, over a model of the host
`difflib.get_close_matches`) -/

/-- Indices `blo ≤ j < bhi` at which `b` holds character `c`, ascending
(the `b2j` table of the host sequence matcher). -/
def b2jIndices (b : List Char) (c : Char) (blo bhi : Nat) : List Nat :=
  ((b.enum.filter (fun q => q.2 = c)).map (·.1)).filter
    (fun j => decide (blo ≤ j) && decide (j < bhi))

/-- One row of the host `find_longest_match` dynamic program: fold the
match positions of `a[i]` in `b`, extending diagonal run lengths.  State:
the new run-length table and the best `(i-start, j-start, size)` so far. -/
def flmRow (i : Nat) (js : List Nat) (j2len : List (Nat × Nat))
    (best : Nat × Nat × Nat) : List (Nat × Nat) × (Nat × Nat × Nat) :=
  js.foldl
    (fun st j =>
      let k := (List.lookup (j - 1) j2len).getD 0 + 1
      let best' := if k > st.2.2.2 then (i + 1 - k, j + 1 - k, k) else st.2
      ((j, k) :: st.1, best'))
    ([], best)

/-- Model of `difflib.SequenceMatcher.find_longest_match` without the junk
heuristics (which do nothing on short identifier-like strings): the
earliest longest block of consecutive matching characters within the given
ranges. -/
def findLongestMatch (a b : List Char) (alo ahi blo bhi : Nat) : Nat × Nat × Nat :=
  let step := fun (st : List (Nat × Nat) × (Nat × Nat × Nat)) (i : Nat) =>
    flmRow i (b2jIndices b (a.getD i ' ') blo bhi) st.1 st.2
  (((List.range (ahi - alo)).map (· + alo)).foldl step ([], (alo, blo, 0))).2

/-- Total size of all matching blocks (the recursion of
`get_matching_blocks`); fuel bounds the block recursion depth. -/
def matchingSize (a b : List Char) : Nat → Nat → Nat → Nat → Nat → Nat
  | 0, _, _, _, _ => 0
  | fuel + 1, alo, ahi, blo, bhi =>
    match findLongestMatch a b alo ahi blo bhi with
    | (_, _, 0) => 0
    | (i, j, k + 1) =>
      (k + 1) + matchingSize a b fuel alo i blo j
        + matchingSize a b fuel (i + (k + 1)) ahi (j + (k + 1)) bhi

/-- Total matched size between two strings. -/
def matchSize (x word : String) : Nat :=
  matchingSize x.data word.data (x.length + word.length + 1) 0 x.length 0 word.length

/-- Lexicographic comparison by code point (the host string `<`). -/
def pyStrLt : List Char → List Char → Bool
  | [], [] => false
  | [], _ :: _ => true
  | _ :: _, [] => false
  | c :: cs, d :: ds => if c = d then pyStrLt cs ds else decide (c < d)

/-- Comparison of two scored candidates, mirroring the host `nlargest` on
`(ratio, string)` pairs: larger ratio first (`2*M/T` compared by cross
multiplication), ties broken by the larger string. -/
def closerMatch (m1 t1 : Nat) (x1 : String) (m2 t2 : Nat) (x2 : String) : Bool :=
  m1 * t2 > m2 * t1 || (m1 * t2 = m2 * t1 && pyStrLt x2.data x1.data)

/-- Descending insertion by `closerMatch`. -/
def insertScored (e : Nat × Nat × String) :
    List (Nat × Nat × String) → List (Nat × Nat × String)
  | [] => [e]
  | f :: fs =>
    if closerMatch e.1 e.2.1 e.2.2 f.1 f.2.1 f.2.2 then e :: f :: fs
    else f :: insertScored e fs

/-- Model of the host `difflib.get_close_matches(word, possibilities, 3,
0.6)` (external to the repository): keep candidates whose similarity ratio
`2*M/(len(x)+len(word))` is at least `0.6` (compared exactly as
`10*M ≥ 3*T`), sort by descending ratio with ties to the larger string,
and take the best three. -/
def get_close_matches (word : String) (possibilities : List String) : List String :=
  let scored := possibilities.filterMap
    (fun x =>
      let m := matchSize x word
      let t := x.length + word.length
      if 10 * m ≥ 3 * t then Option.some (m, t, x) else Option.none)
  ((scored.foldl (fun acc e => insertScored e acc) []).take 3).map (·.2.2)

/-- `did_you_mean` from `src/sugar/_utils.py` (lines 208-220). -/
def did_you_mean (msg word : String) (possibilities : List String) : String :=
  match get_close_matches word possibilities with
  | [] => msg
  | m => msg ++ ". " ++ "Did you mean " ++ join_oxford_comma m "or" ++ "?"

/-! ## `_handle_errors` (validation notes) and `parse_vals` -/

/-- The destinations reported by the `n_vals < n_pos_only` check. -/
def missingPosOnlyDests (p : ParserP) (nVals : Nat) : List String :=
  (p.posOnlySpecs.map (·.1)).drop nVals

/-- Note 1: too few positional values for positional-only specs
(`src/sugar/_parser.py` lines 673-677).  This check does not consult
defaults. -/
def noteMissingPosOnly (p : ParserP) (nVals : Nat) : List String :=
  if nVals < p.posOnlySpecs.length then
    ["missing positional-only arguments "
      ++ join_oxford_comma (missingPosOnlyDests p nVals) "and"]
  else []

/-- Note 2: positional-only destinations also supplied as named tokens. -/
def noteConflictingPosOnly (gt : GroupTokens) : List String :=
  if gt.posOnly.isEmpty then []
  else ["conflicting positional-only arguments "
    ++ join_oxford_comma (gt.posOnly.map (·.1)) "and"]

/-- The positional-or-keyword destinations not covered positionally, not
supplied by name, and lacking a default (the `missing_pos_dests` list). -/
def missingPosOrKwDests (p : ParserP) (nVals : Nat)
    (toks : List (String × KeywordTokenB)) : List String :=
  ((List.enumFrom p.posOnlySpecs.length p.posOrKwSpecs).filter
    (fun q => decide (nVals ≤ q.1) && (List.lookup q.2.1 toks).isNone
      && q.2.2.default.isMissing)).map (·.2.1)

/-- The positional-or-keyword destinations supplied both positionally (by
count) and by name (the `conflicting_dests` list). -/
def conflictingPosOrKwDests (p : ParserP) (nVals : Nat)
    (toks : List (String × KeywordTokenB)) : List String :=
  ((List.enumFrom p.posOnlySpecs.length p.posOrKwSpecs).filter
    (fun q => decide (q.1 < nVals) && (List.lookup q.2.1 toks).isSome)).map (·.2.1)

/-- The message of note 3. -/
def missingPosOrKwNote (p : ParserP) (nVals : Nat)
    (toks : List (String × KeywordTokenB)) : String :=
  "missing positional or keyword arguments "
    ++ join_oxford_comma (missingPosOrKwDests p nVals toks) "and"

/-- Note 3: missing positional-or-keyword destinations (appended before
the conflict note, as in the source). -/
def noteMissingPosOrKw (p : ParserP) (nVals : Nat)
    (toks : List (String × KeywordTokenB)) : List String :=
  if (missingPosOrKwDests p nVals toks).isEmpty then []
  else [missingPosOrKwNote p nVals toks]

/-- Note 4: conflicting positional-or-keyword destinations. -/
def noteConflictingPosOrKw (p : ParserP) (nVals : Nat)
    (toks : List (String × KeywordTokenB)) : List String :=
  if (conflictingPosOrKwDests p nVals toks).isEmpty then []
  else ["conflicting positional or keyword arguments "
    ++ join_oxford_comma (conflictingPosOrKwDests p nVals toks) "and"]

/-- Note 5: excess positional values without a variadic-positional spec. -/
def noteTooMany (p : ParserP) (nVals : Nat) : List String :=
  if p.varPosSpec.isNone ∧ nVals > p.posOnlySpecs.length + p.posOrKwSpecs.length then
    ["too many positional arguments"]
  else []

/-- The keyword-only destinations without token and without default. -/
def missingKwDests (p : ParserP) (toks : List (String × KeywordTokenB)) : List String :=
  (p.kwOnlySpecs.filter
    (fun ds => (List.lookup ds.1 toks).isNone && ds.2.default.isMissing)).map (·.1)

/-- Note 6: missing keyword-only destinations. -/
def noteMissingKw (p : ParserP) (toks : List (String × KeywordTokenB)) : List String :=
  if (missingKwDests p toks).isEmpty then []
  else ["missing keyword arguments " ++ join_oxford_comma (missingKwDests p toks) "and"]

/-- The message of note 7: a single unknown name gets a fuzzy-match
suggestion among the known names, several are just listed. -/
def unknownNote (p : ParserP) (unknown : List (String × KeywordTokenB)) : String :=
  if unknown.length = 1 then
    let name := (unknown.headD ("", ⟨"", [], 0⟩)).1
    did_you_mean ("unknown keyword argument " ++ pyRepr name) name
      (p.nameToDest.map (·.1))
  else "unknown keyword arguments " ++ join_oxford_comma (unknown.map (·.1)) "and"

/-- Note 7: unrecognized named tokens without a variadic-keyword spec. -/
def noteUnknown (p : ParserP) (unknown : List (String × KeywordTokenB)) : List String :=
  if p.varKwSpec.isNone ∧ ¬unknown.isEmpty then [unknownNote p unknown] else []

/-- `ArgumentParser._handle_errors` from `src/sugar/_parser.py`
(lines 659-731): collect every violation as one note, in source order; the
caller raises a single error carrying the whole list iff it is nonempty. -/
def handleNotes (p : ParserP) (vals : List String) (gt : GroupTokens) : List String :=
  noteMissingPosOnly p vals.length
    ++ noteConflictingPosOnly gt
    ++ noteMissingPosOrKw p vals.length gt.posOrKw
    ++ noteConflictingPosOrKw p vals.length gt.posOrKw
    ++ noteTooMany p vals.length
    ++ noteMissingKw p gt.kwOnly
    ++ noteUnknown p gt.unknown

/-- The outcome of `parse_vals`: a `SugarExit` (with the magic `Event`
invocations recorded by destination, in order), a raised `SugarError`
(message and `__notes__`), or the bound `(args, kwargs)`. -/
inductive ParseResult where
  | exitRes (code : Nat) (invoked : List String)
  | errorRes (msg : String) (notes : List String)
  | okRes (args : List RVal) (kwargs : List (String × RVal))

/-- The positional-only binding loop of `parse_vals` (lines 614-619):
consume leading positional values by position, else the default. -/
def bindPosOnly (p : ParserP) (vals : List String) : Except String (List RVal) :=
  mapMExcept
    (fun ip =>
      if h : ip.1 < vals.length then ip.2.2.action.callPositional (ip.2.1, vals.get ⟨ip.1, h⟩)
      else .ok ip.2.2.default)
    p.posOnlySpecs.enum

/-- The positional-or-keyword binding loop (lines 621-631): by position,
else by named token, else the default. -/
def bindPosOrKw (p : ParserP) (vals : List String)
    (toks : List (String × KeywordTokenB)) : Except String (List RVal) :=
  mapMExcept
    (fun ip =>
      if h : ip.1 < vals.length then ip.2.2.action.callPositional (ip.2.1, vals.get ⟨ip.1, h⟩)
      else
        match List.lookup ip.2.1 toks with
        | Option.none => .ok ip.2.2.default
        | Option.some t => ip.2.2.action.callKeyword t)
    (List.enumFrom p.posOnlySpecs.length p.posOrKwSpecs)

/-- The variadic-positional binding (lines 633-638): all remaining
positional values, each converted independently. -/
def bindVarPos (p : ParserP) (vals : List String) : Except String (List RVal) :=
  match p.varPosSpec with
  | Option.none => .ok []
  | Option.some ds =>
    mapMExcept (fun v => ds.2.action.callPositional (ds.1, v))
      (vals.drop (p.posOnlySpecs.length + p.posOrKwSpecs.length))

/-- The keyword-only binding loop (lines 642-648). -/
def bindKwOnly (p : ParserP) (toks : List (String × KeywordTokenB)) :
    Except String (List (String × RVal)) :=
  mapMExcept
    (fun ds =>
      match List.lookup ds.1 toks with
      | Option.none => .ok (ds.1, ds.2.default)
      | Option.some t => (ds.2.action.callKeyword t).map (fun v => (ds.1, v)))
    p.kwOnlySpecs

/-- The variadic-keyword binding (lines 650-655): every unknown token
converted and keyed by its raw name. -/
def bindVarKw (p : ParserP) (unknown : List (String × KeywordTokenB)) :
    Except String (List (String × RVal)) :=
  match p.varKwSpec with
  | Option.none => .ok []
  | Option.some ds =>
    mapMExcept (fun nt => (ds.2.action.callKeyword nt.2).map (fun v => (nt.1, v)))
      unknown

/-- `ArgumentParser.parse_vals` from `src/sugar/_parser.py`
(lines 583-657): classify the named groups, short-circuit on magic tokens
(`_handle_magic`, lines 429-434: invoke every magic `Event` and raise
`SugarExit(0)`), validate (`_handle_errors`), then bind in the fixed
order. -/
def parse_vals (p : ParserP) (vals : List String) (named : NamedVals) : ParseResult :=
  let gt := makeTokensByGroup p named
  if gt.magic.isEmpty then
    match handleNotes p vals gt with
    | [] =>
      (match (do
        let a1 ← bindPosOnly p vals
        let a2 ← bindPosOrKw p vals gt.posOrKw
        let a3 ← bindVarPos p vals
        let k1 ← bindKwOnly p gt.kwOnly
        let k2 ← bindVarKw p gt.unknown
        Except.ok (a1 ++ a2 ++ a3, k1 ++ k2) : Except String (List RVal × List (String × RVal))) with
      | .error msg => .errorRes msg []
      | .ok r => .okRes r.1 r.2)
    | notes => .errorRes "missing or conflicting arguments" notes
  else
    .exitRes 0 (gt.magic.map (·.1))

/-- All registered argument specs of a parser (used to state hypotheses
about the actions a parser carries). -/
def allSpecs (p : ParserP) : List (String × SpecP) :=
  p.posOnlySpecs ++ p.posOrKwSpecs ++ p.kwOnlySpecs
    ++ p.varPosSpec.toList ++ p.varKwSpec.toList

/-- No action of the parser ever returns the `MISSING` sentinel as a
conversion result (true of every action the library constructs: converters
produce parsed values, `Store` a user constant, `Build`/`Record`
collections). -/
def NoMissingActions (p : ParserP) : Prop :=
  ∀ s ∈ allSpecs p,
    (∀ t, s.2.action.callPositional t ≠ .ok .missing)
    ∧ (∀ t, s.2.action.callKeyword t ≠ .ok .missing)

/-! ## Concrete parsers used as witnesses -/

/-- A conversion action that stores the raw token text (used by the
witness parsers; it never produces the `MISSING` sentinel). -/
def strAct : ActionP where
  callPositional := fun t => .ok (.val (.str t.2))
  callKeyword := fun t => .ok (.val (.str (joinSep " " t.value)))

/-- A witness parser: the default `help`/`h` magic flag, one required
positional-or-keyword argument `x`, one keyword-only argument `k` with a
default (the state an `ArgumentParser()` with those registrations holds). -/
def pMagicW : ParserP where
  nameToDest := [("help", "help"), ("h", "help"), ("x", "x"), ("k", "k")]
  destToGroup := [("help", MAGIC), ("x", POSITIONAL_OR_KEYWORD), ("k", KEYWORD_ONLY)]
  magicSpecs := [("help", ⟨["help", "h"], "show this help message and exit"⟩)]
  posOnlySpecs := []
  posOrKwSpecs := [("x", ⟨["x"], strAct, "", .missing⟩)]
  kwOnlySpecs := [("k", ⟨["k"], strAct, "", .val (.int 5)⟩)]
  varPosSpec := Option.none
  varKwSpec := Option.none

/-- A witness parser with a single positional-only argument `x` carrying a
(non-missing) default. -/
def pPosOnlyW : ParserP where
  nameToDest := [("x", "x")]
  destToGroup := [("x", POSITIONAL_ONLY)]
  magicSpecs := []
  posOnlySpecs := [("x", ⟨["x"], strAct, "", .val (.str ("dflt"))⟩)]
  posOrKwSpecs := []
  kwOnlySpecs := []
  varPosSpec := Option.none
  varKwSpec := Option.none

/-- A witness parser with one positional-only argument (no default) and
one positional-or-keyword argument with a default. -/
def pBindW : ParserP where
  nameToDest := [("a", "a"), ("b", "b")]
  destToGroup := [("a", POSITIONAL_ONLY), ("b", POSITIONAL_OR_KEYWORD)]
  magicSpecs := []
  posOnlySpecs := [("a", ⟨["a"], strAct, "", .missing⟩)]
  posOrKwSpecs := [("b", ⟨["b"], strAct, "", .val (.int 0)⟩)]
  kwOnlySpecs := []
  varPosSpec := Option.none
  varKwSpec := Option.none

/-! # Supporting lemmas -/

mutual

theorem TypeDesc.beq_iff (a b : TypeDesc) : TypeDesc.beq a b = true ↔ a = b := by
  cases a <;> cases b
  case any.any => exact iff_of_true rfl rfl
  case prim.prim p q => show (p == q) = true ↔ _; simp
  case noneLit.noneLit => exact iff_of_true rfl rfl
  case ellip.ellip => exact iff_of_true rfl rfl
  case alias.alias x y => show (x == y) = true ↔ _; simp
  case annotated.annotated x y =>
    show TypeDesc.beq x y = true ↔ _
    rw [TypeDesc.beq_iff x y]
    simp
  case union.union xs ys =>
    show TypeDesc.beqList xs ys = true ↔ _
    rw [TypeDesc.beqList_iff xs ys]
    simp
  case generic.generic o oa o' oa' =>
    cases oa <;> cases oa'
    case none.none => show (o == o') = true ↔ _; simp
    case none.some ys => exact iff_of_false (fun h => nomatch h) (fun h => nomatch h)
    case some.none xs => exact iff_of_false (fun h => nomatch h) (fun h => nomatch h)
    case some.some xs ys =>
      show (o == o' && TypeDesc.beqList xs ys) = true ↔ _
      rw [Bool.and_eq_true, TypeDesc.beqList_iff xs ys]
      simp
  case generic.any o oa =>
    cases oa <;> exact iff_of_false (fun h => nomatch h) (fun h => nomatch h)
  case generic.prim o oa p =>
    cases oa <;> exact iff_of_false (fun h => nomatch h) (fun h => nomatch h)
  case generic.noneLit o oa =>
    cases oa <;> exact iff_of_false (fun h => nomatch h) (fun h => nomatch h)
  case generic.ellip o oa =>
    cases oa <;> exact iff_of_false (fun h => nomatch h) (fun h => nomatch h)
  case generic.alias o oa x =>
    cases oa <;> exact iff_of_false (fun h => nomatch h) (fun h => nomatch h)
  case generic.annotated o oa x =>
    cases oa <;> exact iff_of_false (fun h => nomatch h) (fun h => nomatch h)
  case generic.union o oa xs =>
    cases oa <;> exact iff_of_false (fun h => nomatch h) (fun h => nomatch h)
  all_goals exact iff_of_false (fun h => nomatch h) (fun h => nomatch h)
termination_by sizeOf a

theorem TypeDesc.beqList_iff (xs ys : List TypeDesc) :
    TypeDesc.beqList xs ys = true ↔ xs = ys := by
  cases xs <;> cases ys
  case nil.nil => exact iff_of_true rfl rfl
  case nil.cons y ys => exact iff_of_false (fun h => nomatch h) (fun h => nomatch h)
  case cons.nil => exact iff_of_false (fun h => nomatch h) (fun h => nomatch h)
  case cons.cons x xs y ys =>
    show (TypeDesc.beq x y && TypeDesc.beqList xs ys) = true ↔ _
    rw [Bool.and_eq_true, TypeDesc.beq_iff x y, TypeDesc.beqList_iff xs ys]
    simp
termination_by sizeOf xs

end


/-- Reduction of a successful `Except` bind. -/
theorem exceptBind_ok {α β ε : Type} (a : α) (f : α → Except ε β) :
    (Except.ok a : Except ε α) >>= f = f a := rfl

/-- Reduction of a failed `Except` bind. -/
theorem exceptBind_error {α β ε : Type} (e : ε) (f : α → Except ε β) :
    (Except.error e : Except ε α) >>= f = .error e := rfl

/-- A successful fallible map preserves length. -/
theorem mapMExcept_ok_length {α β ε : Type} (f : α → Except ε β) :
    ∀ (xs : List α) (ys : List β), mapMExcept f xs = .ok ys → ys.length = xs.length := by
  intro xs
  induction xs with
  | nil =>
    intro ys h
    simp only [mapMExcept] at h
    cases h
    rfl
  | cons x xs ih =>
    intro ys h
    simp only [mapMExcept] at h
    cases hfx : f x with
    | error e =>
      rw [hfx, exceptBind_error] at h
      exact Except.noConfusion h
    | ok y =>
      rw [hfx, exceptBind_ok] at h
      cases hr : mapMExcept f xs with
      | error e =>
        rw [hr, exceptBind_error] at h
        exact Except.noConfusion h
      | ok ys' =>
        rw [hr, exceptBind_ok] at h
        cases h
        simp [ih ys' hr]

/-- Membership in the keep-first deduplication: an element survives iff it
occurs in the input and is not among the already-kept elements. -/
theorem mem_dedupAux (m : TypeDesc) :
    ∀ (xs seen : List TypeDesc), m ∈ dedupAux xs seen ↔ (m ∈ xs ∧ m ∉ seen) := by
  intro xs
  induction xs with
  | nil => intro seen; simp [dedupAux]
  | cons x xs ih =>
    intro seen
    simp only [dedupAux]
    by_cases hx : seen.any (fun y => TypeDesc.beq y x) = true
    · have hxs : x ∈ seen := by
        rcases List.any_eq_true.mp hx with ⟨y, hy, hbeq⟩
        rw [TypeDesc.beq_iff] at hbeq
        exact hbeq ▸ hy
      rw [if_pos hx, ih seen]
      simp only [List.mem_cons]
      constructor
      · rintro ⟨hm, hns⟩
        exact ⟨Or.inr hm, hns⟩
      · rintro ⟨hm | hm, hns⟩
        · exact absurd (hm ▸ hxs) hns
        · exact ⟨hm, hns⟩
    · have hxs : x ∉ seen := by
        intro hc
        exact hx (List.any_eq_true.mpr ⟨x, hc, (TypeDesc.beq_iff x x).mpr rfl⟩)
      rw [if_neg hx]
      simp only [List.mem_cons, ih (x :: seen)]
      constructor
      · rintro (rfl | ⟨hm, hns⟩)
        · exact ⟨Or.inl rfl, hxs⟩
        · exact ⟨Or.inr hm, fun hc => hns (Or.inr hc)⟩
      · rintro ⟨rfl | hm, hns⟩
        · exact Or.inl rfl
        · by_cases hmx : m = x
          · exact Or.inl hmx
          · exact Or.inr ⟨hm, fun hc => hc.elim hmx hns⟩

/-- Membership is invariant under `dedupTD`. -/
theorem mem_dedupTD (m : TypeDesc) (xs : List TypeDesc) :
    m ∈ dedupTD xs ↔ m ∈ xs := by
  rw [dedupTD, mem_dedupAux]
  simp

/-- A non-union description is its own (singleton) member list. -/
theorem unionMembers_not_union (t : TypeDesc) (h : isUnionTD t = false) :
    unionMembers t = [t] := by
  cases t <;> first
    | rfl
    | exact absurd h (by simp [isUnionTD])

/-- A non-union description is flat. -/
theorem isFlat_of_not_union (t : TypeDesc) (h : isUnionTD t = false) : IsFlat t := by
  intro m hm
  rw [unionMembers_not_union t h, List.mem_singleton] at hm
  exact hm ▸ h

/-- `mkOr` of flat operands is flat, and its member list is the merge of
the operands' member lists up to deduplication. -/
theorem mkOr_members (a b : TypeDesc) (ha : IsFlat a) (hb : IsFlat b) :
    IsFlat (mkOr a b)
    ∧ ∀ m, (m ∈ unionMembers (mkOr a b) ↔ m ∈ unionMembers a ++ unionMembers b) := by
  have hconcat : ∀ m ∈ dedupTD (unionMembers a ++ unionMembers b), isUnionTD m = false := by
    intro m hm
    rw [mem_dedupTD] at hm
    rcases List.mem_append.mp hm with h | h
    exacts [ha m h, hb m h]
  rcases hds : dedupTD (unionMembers a ++ unionMembers b) with _ | ⟨x, _ | ⟨y, t⟩⟩
  · constructor
    · intro m hm
      simp only [mkOr, hds] at hm
      simp [unionMembers] at hm
    · intro m
      simp only [mkOr, hds]
      constructor
      · intro hm
        simp [unionMembers] at hm
      · intro hm
        have hmd : m ∈ dedupTD (unionMembers a ++ unionMembers b) :=
          (mem_dedupTD m _).mpr hm
        rw [hds] at hmd
        exact absurd hmd (List.not_mem_nil m)
  · have hxd : x ∈ dedupTD (unionMembers a ++ unionMembers b) := by
      rw [hds]; exact List.mem_singleton_self x
    have hxnu : isUnionTD x = false := hconcat x hxd
    constructor
    · simp only [mkOr, hds]
      exact isFlat_of_not_union x hxnu
    · intro m
      simp only [mkOr, hds]
      rw [unionMembers_not_union x hxnu, List.mem_singleton]
      constructor
      · intro hm
        exact hm ▸ (mem_dedupTD x _).mp hxd
      · intro hm
        have hmd := (mem_dedupTD m _).mpr hm
        rw [hds, List.mem_singleton] at hmd
        exact hmd
  · constructor
    · intro m hm
      simp only [mkOr, hds] at hm
      refine hconcat m ?_
      rw [hds]
      simpa [unionMembers] using hm
    · intro m
      simp only [mkOr, hds]
      show m ∈ unionMembers (.union (x :: y :: t)) ↔ _
      rw [show unionMembers (.union (x :: y :: t)) = x :: y :: t from rfl, ← hds]
      exact mem_dedupTD m _

/-- Left fold of `mkOr` over flat descriptions: the result is flat and its
member list is the set-union (flattening) of all operands' member lists. -/
theorem foldl_mkOr_spec :
    ∀ (rest : List TypeDesc) (r : TypeDesc), IsFlat r → (∀ x ∈ rest, IsFlat x) →
      IsFlat (rest.foldl mkOr r)
      ∧ ∀ m, (m ∈ unionMembers (rest.foldl mkOr r)
          ↔ m ∈ (r :: rest).flatMap unionMembers) := by
  intro rest
  induction rest with
  | nil =>
    intro r hr _
    refine ⟨hr, fun m => ?_⟩
    simp
  | cons x rest ih =>
    intro r hr hxs
    have hx := hxs x (by simp)
    obtain ⟨hflat, hmem⟩ := mkOr_members r x hr hx
    obtain ⟨ih1, ih2⟩ := ih (mkOr r x) hflat (fun y hy => hxs y (by simp [hy]))
    refine ⟨ih1, fun m => ?_⟩
    show m ∈ unionMembers (rest.foldl mkOr (mkOr r x)) ↔ _
    rw [ih2 m]
    simp only [List.flatMap_cons, List.mem_append, hmem m]
    tauto

/-- Pointwise propagation of a property through `resolveListWith`. -/
theorem resolveListWith_ok_mem
    {f : TypeDesc → List String → Except ResolveErr (TypeDesc × List String)}
    (Q : TypeDesc → Prop)
    (hf : ∀ t ctx r ctx', f t ctx = .ok (r, ctx') → Q r) :
    ∀ (ts : List TypeDesc) (ctx : List String) (rs : List TypeDesc) (ctx' : List String),
      resolveListWith f ts ctx = .ok (rs, ctx') → ∀ r ∈ rs, Q r := by
  intro ts
  induction ts with
  | nil =>
    intro ctx rs ctx' h r hr
    simp only [resolveListWith] at h
    cases h
    exact absurd hr (List.not_mem_nil r)
  | cons t ts ih =>
    intro ctx rs ctx' h r hr
    simp only [resolveListWith] at h
    cases hft : f t ctx with
    | error e =>
      rw [hft] at h
      simp only [exceptBind_error] at h
      exact Except.noConfusion h
    | ok p =>
      obtain ⟨r0, ctx0⟩ := p
      rw [hft] at h
      simp only [exceptBind_ok] at h
      cases hrest : resolveListWith f ts ctx0 with
      | error e =>
        rw [hrest] at h
        simp only [exceptBind_error] at h
        exact Except.noConfusion h
      | ok q =>
        obtain ⟨rs0, ctx1⟩ := q
        rw [hrest] at h
        simp only [exceptBind_ok] at h
        cases h
        rcases List.mem_cons.mp hr with rfl | hr0
        · exact hf t ctx r ctx0 hft
        · exact ih ctx0 rs0 _ hrest r hr0

/-- Every description produced by the resolver is flat: the resolver never
returns a union directly containing a union. -/
theorem resolveTypeCtx_flat (env : TypeEnv) :
    ∀ (fuel : Nat) (tp : TypeDesc) (ctx : List String) (r : TypeDesc) (ctx' : List String),
      resolveTypeCtx env fuel tp ctx = .ok (r, ctx') → IsFlat r := by
  intro fuel
  induction fuel with
  | zero => intro tp ctx r ctx' h; simp [resolveTypeCtx] at h
  | succ fuel ih =>
    intro tp ctx r ctx' h
    cases tp with
    | «alias» a =>
      simp only [resolveTypeCtx] at h
      by_cases hc : a ∈ ctx
      · rw [if_pos hc] at h
        cases h
        exact isFlat_of_not_union _ rfl
      · rw [if_neg hc] at h
        cases hl : List.lookup a env with
        | none => rw [hl] at h; exact Except.noConfusion h
        | some v =>
          rw [hl] at h
          exact ih v (a :: ctx) r ctx' h
    | noneLit =>
      simp only [resolveTypeCtx] at h
      cases h
      exact isFlat_of_not_union _ rfl
    | annotated inner =>
      simp only [resolveTypeCtx] at h
      exact ih inner ctx r ctx' h
    | union args =>
      simp only [resolveTypeCtx] at h
      cases hlw : resolveListWith (resolveTypeCtx env fuel) args ctx with
      | error e =>
        rw [hlw] at h
        simp only [exceptBind_error] at h
        exact Except.noConfusion h
      | ok p =>
        obtain ⟨rs, ctx0⟩ := p
        rw [hlw] at h
        simp only [exceptBind_ok] at h
        by_cases hany : rs.any isAnyTD = true
        · rw [if_pos hany] at h
          cases h
          exact isFlat_of_not_union _ rfl
        · rw [if_neg hany] at h
          cases rs with
          | nil => exact Except.noConfusion h
          | cons r0 rest =>
            simp only at h
            cases h
            have flats : ∀ x ∈ r0 :: rest, IsFlat x :=
              resolveListWith_ok_mem IsFlat
                (fun tt cc rr cc' hh => ih tt cc rr cc' hh) args ctx _ _ hlw
            exact (foldl_mkOr_spec rest r0 (flats r0 (by simp))
              (fun x hx => flats x (by simp [hx]))).1
    | generic o argsOpt =>
      cases argsOpt with
      | none =>
        simp only [resolveTypeCtx] at h
        cases h
        exact isFlat_of_not_union _ rfl
      | some args =>
        simp only [resolveTypeCtx] at h
        cases hlw : resolveListWith (resolveTypeCtx env fuel) args ctx with
        | error e =>
          rw [hlw] at h
          simp only [exceptBind_error] at h
          exact Except.noConfusion h
        | ok p =>
          obtain ⟨rs, ctx0⟩ := p
          rw [hlw] at h
          simp only [exceptBind_ok] at h
          cases h
          exact isFlat_of_not_union _ rfl
    | prim p =>
      simp only [resolveTypeCtx] at h
      cases h
      exact isFlat_of_not_union _ rfl
    | any =>
      simp only [resolveTypeCtx] at h
      cases h
      exact isFlat_of_not_union _ rfl
    | ellip =>
      simp only [resolveTypeCtx] at h
      cases h
      exact isFlat_of_not_union _ rfl


/-- Every element of a successful fallible map comes from applying the
function to some input element. -/
theorem mapMExcept_ok_mem {α β ε : Type} (f : α → Except ε β) :
    ∀ (xs : List α) (ys : List β), mapMExcept f xs = .ok ys →
      ∀ y ∈ ys, ∃ x ∈ xs, f x = .ok y := by
  intro xs
  induction xs with
  | nil =>
    intro ys h y hy
    simp only [mapMExcept] at h
    cases h
    exact absurd hy (List.not_mem_nil y)
  | cons x xs ih =>
    intro ys h y hy
    simp only [mapMExcept] at h
    cases hfx : f x with
    | error e =>
      rw [hfx, exceptBind_error] at h
      exact Except.noConfusion h
    | ok y0 =>
      rw [hfx, exceptBind_ok] at h
      cases hr : mapMExcept f xs with
      | error e =>
        rw [hr, exceptBind_error] at h
        exact Except.noConfusion h
      | ok ys' =>
        rw [hr, exceptBind_ok] at h
        cases h
        rcases List.mem_cons.mp hy with rfl | hy'
        · exact ⟨x, List.mem_cons_self x xs, hfx⟩
        · obtain ⟨x', hx', hfx'⟩ := ih ys' hr y hy'
          exact ⟨x', List.mem_cons_of_mem x hx', hfx'⟩

/-- Range and membership facts for an enumerated list element. -/
theorem mem_enumFrom_facts {α : Type} :
    ∀ (xs : List α) (k i : Nat) (a : α), (i, a) ∈ List.enumFrom k xs →
      k ≤ i ∧ i < k + xs.length ∧ a ∈ xs := by
  intro xs
  induction xs with
  | nil => intro k i a h; exact absurd h (List.not_mem_nil _)
  | cons x xs ih =>
    intro k i a h
    rcases List.mem_cons.mp h with heq | hmem
    · obtain ⟨rfl, rfl⟩ := Prod.mk.injEq .. ▸ And.intro (congrArg Prod.fst heq) (congrArg Prod.snd heq)
      exact ⟨Nat.le_refl k, by simp [Nat.lt_succ_of_le, Nat.le_add_right], List.mem_cons_self x xs⟩
    · obtain ⟨h1, h2, h3⟩ := ih (k + 1) i a hmem
      refine ⟨Nat.le_of_succ_le h1, ?_, List.mem_cons_of_mem x h3⟩
      simpa [Nat.add_assoc, Nat.add_comm 1 xs.length] using h2

/-- A value other than the sentinel. -/
theorem ne_missing_of_isMissing_false {v : RVal} (h : v.isMissing = false) :
    v ≠ .missing := by
  cases v
  · exact absurd h (by simp [RVal.isMissing])
  · exact fun hc => RVal.noConfusion hc

/-- Results of the positional-only binding loop are not `MISSING` when
every positional-only spec is covered by a positional value. -/
theorem bindPosOnly_no_missing (p : ParserP) (vals : List String) (a1 : List RVal)
    (hact : NoMissingActions p) (hlen : p.posOnlySpecs.length ≤ vals.length)
    (h : bindPosOnly p vals = .ok a1) : ∀ v ∈ a1, v ≠ .missing := by
  intro v hv
  obtain ⟨ip, hip, hbody⟩ := mapMExcept_ok_mem _ _ _ h v hv
  obtain ⟨i, d, s⟩ := ip
  obtain ⟨-, hlt, hmem⟩ := mem_enumFrom_facts p.posOnlySpecs 0 i (d, s) hip
  have hi : i < vals.length := Nat.lt_of_lt_of_le (by simpa using hlt) hlen
  rw [dif_pos hi] at hbody
  have hspec := (hact (d, s) (by simp [allSpecs, hmem])).1 (d, vals.get ⟨i, hi⟩)
  intro hc
  exact hspec (hc ▸ hbody)

/-- Results of the positional-or-keyword binding loop are not `MISSING`
when the missing-destination check found nothing. -/
theorem bindPosOrKw_no_missing (p : ParserP) (vals : List String)
    (toks : List (String × KeywordTokenB)) (a2 : List RVal)
    (hact : NoMissingActions p)
    (hmiss : (missingPosOrKwDests p vals.length toks).isEmpty = true)
    (h : bindPosOrKw p vals toks = .ok a2) : ∀ v ∈ a2, v ≠ .missing := by
  intro v hv
  obtain ⟨ip, hip, hbody⟩ := mapMExcept_ok_mem _ _ _ h v hv
  obtain ⟨i, d, s⟩ := ip
  obtain ⟨-, -, hmem⟩ := mem_enumFrom_facts p.posOrKwSpecs p.posOnlySpecs.length i (d, s) hip
  have hspec := hact (d, s) (by simp [allSpecs, hmem])
  by_cases hi : i < vals.length
  · rw [dif_pos hi] at hbody
    intro hc
    exact hspec.1 (d, vals.get ⟨i, hi⟩) (hc ▸ hbody)
  · rw [dif_neg hi] at hbody
    cases hlk : List.lookup d toks with
    | none =>
      simp only [hlk] at hbody
      have hfilter : missingPosOrKwDests p vals.length toks = [] :=
        List.isEmpty_iff.mp hmiss
      unfold missingPosOrKwDests at hfilter
      have hnotall := List.filter_eq_nil_iff.mp (List.map_eq_nil_iff.mp hfilter)
      have hfalse := hnotall (i, d, s) hip
      simp only [Bool.and_eq_true, decide_eq_true_eq, not_and] at hfalse
      have hdm : s.default.isMissing = false := by
        rcases Bool.eq_false_or_eq_true s.default.isMissing with ht | hf
        · exact absurd ht (fun hc => hfalse ⟨Nat.le_of_not_lt hi, by simp [hlk]⟩ hc)
        · exact hf
      cases hbody
      exact ne_missing_of_isMissing_false hdm
    | some t =>
      simp only [hlk] at hbody
      intro hc
      exact hspec.2 t (hc ▸ hbody)

/-- Results of the variadic-positional binding are not `MISSING`. -/
theorem bindVarPos_no_missing (p : ParserP) (vals : List String) (a3 : List RVal)
    (hact : NoMissingActions p)
    (h : bindVarPos p vals = .ok a3) : ∀ v ∈ a3, v ≠ .missing := by
  intro v hv
  unfold bindVarPos at h
  cases hvp : p.varPosSpec with
  | none =>
    rw [hvp] at h
    cases h
    exact absurd hv (List.not_mem_nil v)
  | some ds =>
    rw [hvp] at h
    obtain ⟨x, -, hbody⟩ := mapMExcept_ok_mem _ _ _ h v hv
    have hspec := (hact ds (by simp [allSpecs, hvp])).1 (ds.1, x)
    intro hc
    exact hspec (hc ▸ hbody)

/-- Results of the keyword-only binding loop are not `MISSING` when the
missing-keyword check found nothing. -/
theorem bindKwOnly_no_missing (p : ParserP) (toks : List (String × KeywordTokenB))
    (k1 : List (String × RVal)) (hact : NoMissingActions p)
    (hmiss : (missingKwDests p toks).isEmpty = true)
    (h : bindKwOnly p toks = .ok k1) : ∀ kv ∈ k1, kv.2 ≠ .missing := by
  intro kv hkv
  obtain ⟨ds, hds, hbody⟩ := mapMExcept_ok_mem _ _ _ h kv hkv
  have hspec := hact ds (by simp [allSpecs, hds])
  cases hlk : List.lookup ds.1 toks with
  | none =>
    simp only [hlk] at hbody
    have hfilter : missingKwDests p toks = [] := List.isEmpty_iff.mp hmiss
    unfold missingKwDests at hfilter
    have hnotall := List.filter_eq_nil_iff.mp (List.map_eq_nil_iff.mp hfilter)
    have hfalse := hnotall ds hds
    simp only [Bool.and_eq_true, not_and] at hfalse
    have hdm : ds.2.default.isMissing = false := by
      rcases Bool.eq_false_or_eq_true ds.2.default.isMissing with ht | hf
      · exact absurd ht (fun hc => hfalse (by simp [hlk]) hc)
      · exact hf
    cases hbody
    exact ne_missing_of_isMissing_false hdm
  | some t =>
    simp only [hlk] at hbody
    cases hck : ds.2.action.callKeyword t with
    | error e =>
      simp only [hck, Except.map] at hbody
      exact Except.noConfusion hbody
    | ok v =>
      simp only [hck, Except.map] at hbody
      cases hbody
      intro hc
      exact hspec.2 t (hck.trans (congrArg Except.ok hc))

/-- Results of the variadic-keyword binding are not `MISSING`. -/
theorem bindVarKw_no_missing (p : ParserP) (unk : List (String × KeywordTokenB))
    (k2 : List (String × RVal)) (hact : NoMissingActions p)
    (h : bindVarKw p unk = .ok k2) : ∀ kv ∈ k2, kv.2 ≠ .missing := by
  intro kv hkv
  unfold bindVarKw at h
  cases hvk : p.varKwSpec with
  | none =>
    rw [hvk] at h
    cases h
    exact absurd hkv (List.not_mem_nil kv)
  | some ds =>
    rw [hvk] at h
    obtain ⟨nt, -, hbody⟩ := mapMExcept_ok_mem _ _ _ h kv hkv
    have hspec := (hact ds (by simp [allSpecs, hvk])).2 nt.2
    cases hck : ds.2.action.callKeyword nt.2 with
    | error e =>
      simp only [hck, Except.map] at hbody
      exact Except.noConfusion hbody
    | ok v =>
      simp only [hck, Except.map] at hbody
      cases hbody
      intro hc
      exact hspec (hck.trans (congrArg Except.ok hc))

/-! # Claim theorems: literal evaluator and converters -/

/-- C4: the literal evaluator fails with a ValueError-kind error on each of
`dict()`, `set(args)`, `{**kwargs}` (braces spelled `\x7b**kwargs\x7d`),
`1j + 2j` and `1 + 2` — well-formed expressions using disallowed
constructs — and fails with a SyntaxError-kind error on each of `0a`, `'`
and `"`, which cannot be tokenized as an expression at all. -/
theorem ext_eval_error_boundary :
    ext_eval ("dict()") = .error .valueErr
    ∧ ext_eval ("set(args)") = .error .valueErr
    ∧ ext_eval ("{**kwargs}") = .error .valueErr
    ∧ ext_eval ("1j + 2j") = .error .valueErr
    ∧ ext_eval ("1 + 2") = .error .valueErr
    ∧ ext_eval ("0a") = .error .syntaxErr
    ∧ ext_eval ("'") = .error .syntaxErr
    ∧ ext_eval ("\"") = .error .syntaxErr :=
  ⟨rfl, rfl, rfl, rfl, rfl, rfl, rfl, rfl⟩

/-- C9 (implicit): the `NoneType` converter `none` returns `None` exactly
when its input lowercased is in `TRUE_VALS` (that is, `"true"` or `"t"`),
and raises `ValueError` on every other input — in particular on `"none"`
and `"None"` — even though the `NONE_VALS` vocabulary containing `"none"`
is defined alongside it. -/
theorem none_true_vocabulary :
    (∀ x : String, none_ x = .ok PyVal.none ↔ pyLower x ∈ TRUE_VALS)
    ∧ (∀ x : String, pyLower x ∉ TRUE_VALS → none_ x = .error ())
    ∧ TRUE_VALS = ["true", "t"]
    ∧ none_ ("none") = .error ()
    ∧ none_ ("None") = .error ()
    ∧ NONE_VALS = ["none"] := by
  refine ⟨fun x => ?_, fun x hx => ?_, rfl, rfl, rfl, rfl⟩
  · unfold none_
    by_cases h : x.toLower ∈ TRUE_VALS <;> simp [h]
  · unfold none_
    simp [hx]

/-- Witness for the hypothesis-bearing conjunct of `none_true_vocabulary`:
the input `"yes"` lowercases outside `TRUE_VALS`, so the converter fails. -/
theorem none_true_vocabulary_witness : none_ ("yes") = .error () :=
  none_true_vocabulary.2.1 ("yes") (by decide)

/-! # Claim theorems: type resolution and action derivation -/

/-- C5: for the self-referential alias `type C = list[C] | int`, type
resolution terminates (returns, with the inner alias occurrence left in
place by the cycle guard), Action derivation terminates (returns an
action), and that action applied positionally to the token
`"[[], [[]], [[], [[]]]]"` accepts it and returns the corresponding
nested-list value. -/
theorem auto_self_referential_alias :
    resolve_type envC (.alias ("C"))
      = .ok (.union [.generic .listO (Option.some [.alias ("C")]), .prim .intT])
    ∧ (do
        let act ← auto envC (.alias ("C"))
        act.callPositional (("", "[[], [[]], [[], [[]]]]")))
      = .ok (.list [.list [], .list [.list []], .list [.list [], .list [.list []]]]) :=
  ⟨rfl, rfl⟩

/-- C6: in the resolver's union branch, each member is resolved (threading
the identity set); if any member resolves to `Any` the whole union resolves
to `Any`; otherwise the result is the fold of the host `|` operator over
the resolved members, which is flat (non-nested) and whose member list is,
up to order-preserving deduplication, the set-union of the resolved
members' member lists. -/
theorem resolve_union_collapse_or_flatten (env : TypeEnv) (fuel : Nat)
    (args : List TypeDesc) (ctx ctx' : List String) (r0 : TypeDesc) (rest : List TypeDesc)
    (h : resolveListWith (resolveTypeCtx env fuel) args ctx = .ok (r0 :: rest, ctx')) :
    resolveTypeCtx env (fuel + 1) (.union args) ctx
      = .ok (if (r0 :: rest).any isAnyTD then .any else rest.foldl mkOr r0, ctx')
    ∧ ((r0 :: rest).any isAnyTD = false →
        IsFlat (rest.foldl mkOr r0)
        ∧ ∀ m, (m ∈ unionMembers (rest.foldl mkOr r0)
            ↔ m ∈ (r0 :: rest).flatMap unionMembers)) := by
  constructor
  · show (do
        let (rs, ctx') ← resolveListWith (resolveTypeCtx env fuel) args ctx
        if rs.any isAnyTD then Except.ok (TypeDesc.any, ctx')
        else
          match rs with
          | [] => Except.error ResolveErr.typeErr
          | r :: rest => Except.ok (rest.foldl mkOr r, ctx')) = _
    rw [h]
    simp only [exceptBind_ok]
    by_cases hany : (r0 :: rest).any isAnyTD = true
    · rw [if_pos hany, if_pos hany]
    · rw [if_neg hany, if_neg hany]
  · intro hany
    have flats : ∀ x ∈ r0 :: rest, IsFlat x :=
      resolveListWith_ok_mem IsFlat
        (fun t c r c' hh => resolveTypeCtx_flat env fuel t c r c' hh) args ctx _ ctx' h
    exact foldl_mkOr_spec rest r0 (flats r0 (by simp)) (fun x hx => flats x (by simp [hx]))

/-- Witness for `resolve_union_collapse_or_flatten` at the union
`int | str` with no aliases: the member resolution hypothesis holds by
computation and the resolver returns the flat two-member union. -/
theorem resolve_union_collapse_or_flatten_witness :
    resolveTypeCtx [] 2 (.union [.prim .intT, .prim .strT]) []
      = .ok (if ([TypeDesc.prim .intT, .prim .strT]).any isAnyTD then .any
             else ([TypeDesc.prim .strT]).foldl mkOr (.prim .intT), []) :=
  (resolve_union_collapse_or_flatten [] 1 [.prim .intT, .prim .strT] [] []
    (.prim .intT) [.prim .strT] rfl).1

/-- C7: `Record.call_keyword` converts exactly `min` (declared arity,
supplied count) values — value `i` through converter `i` via `zip` — and
folds them into the collection; extra supplied values are silently dropped
and missing positions are simply absent, with no arity error in either
case. -/
theorem record_call_keyword_zip (coll : List PyVal → PyVal)
    (elem : List (String → Except Unit PyVal)) (func : String → Except Unit PyVal)
    (name : String) (t : KeywordTokenB) (rs : List PyVal)
    (h : mapMExcept (fun p => convCall p.1 name t.dest p.2) (elem.zip t.value) = .ok rs) :
    (RecordB coll elem func name).callKeyword t = .ok (coll rs)
    ∧ rs.length = min elem.length t.value.length := by
  constructor
  · show (do
        let vs ← mapMExcept
          (fun (p : (String → Except Unit PyVal) × String) => convCall p.1 name t.dest p.2)
          (elem.zip t.value)
        Except.ok (coll vs)) = _
    rw [h, exceptBind_ok]
  · rw [mapMExcept_ok_length _ _ _ h, List.length_zip]

/-- Witness for `record_call_keyword_zip`: two converters, three supplied
values; the third value is dropped and the record succeeds. -/
theorem record_call_keyword_zip_witness :
    (RecordB .tuple [fun s => .ok (.str s), fun s => .ok (.str s)] any_
        "t").callKeyword ⟨"d", ["a", "b", "c"], 1⟩
      = .ok (.tuple [.str ("a"), .str ("b")])
    ∧ (2 : Nat) = min 2 3 := by
  have h := record_call_keyword_zip .tuple [fun s => .ok (.str s), fun s => .ok (.str s)]
    any_ "t" ⟨"d", ["a", "b", "c"], 1⟩ [.str ("a"), .str ("b")] rfl
  exact ⟨h.1, h.2⟩

end Sugar

namespace Sugar

/-! # Claim theorems: the binding resolver -/

/-- C2: if any named token resolves to the reserved magic group,
`parse_vals` invokes the `Event` action of every such token (recorded, in
order, in the exit result) and terminates the run with exit status `0` —
never reaching validation, so no binding-error violation is reported. -/
theorem magic_flags_short_circuit (p : ParserP) (vals : List String) (named : NamedVals)
    (h : (makeTokensByGroup p named).magic.isEmpty = false) :
    parse_vals p vals named
      = .exitRes 0 ((makeTokensByGroup p named).magic.map (·.1)) := by
  simp [parse_vals, h]

/-- Witness for `magic_flags_short_circuit`: supplying `--help` to a parser
whose required argument `x` is absent still exits with status 0 invoking
the help event, instead of reporting the missing argument. -/
theorem magic_flags_short_circuit_witness :
    parse_vals pMagicW [] ([("help", [])])
      = .exitRes 0 ((makeTokensByGroup pMagicW ([("help", [])])).magic.map (·.1)) :=
  magic_flags_short_circuit pMagicW [] ([("help", [])]) rfl

/-- C1: when binding fails validation with both a missing required
positional-or-keyword argument and an unrecognized named token (and no
variadic-keyword spec and no magic flag), `parse_vals` raises exactly one
structured error, whose notes are the full collected list and contain both
the missing-argument note and the unknown-argument note. -/
theorem binding_error_lists_all_violations (p : ParserP) (vals : List String)
    (named : NamedVals)
    (hmagic : (makeTokensByGroup p named).magic.isEmpty = true)
    (hmiss : (missingPosOrKwDests p vals.length
      (makeTokensByGroup p named).posOrKw).isEmpty = false)
    (hunk : (makeTokensByGroup p named).unknown.isEmpty = false)
    (hvarkw : p.varKwSpec = Option.none) :
    parse_vals p vals named
      = .errorRes ("missing or conflicting arguments")
          (handleNotes p vals (makeTokensByGroup p named))
    ∧ missingPosOrKwNote p vals.length (makeTokensByGroup p named).posOrKw
        ∈ handleNotes p vals (makeTokensByGroup p named)
    ∧ unknownNote p (makeTokensByGroup p named).unknown
        ∈ handleNotes p vals (makeTokensByGroup p named) := by
  have h3 : noteMissingPosOrKw p vals.length (makeTokensByGroup p named).posOrKw
      = [missingPosOrKwNote p vals.length (makeTokensByGroup p named).posOrKw] := by
    unfold noteMissingPosOrKw
    rw [if_neg]
    simp [hmiss]
  have h7 : noteUnknown p (makeTokensByGroup p named).unknown
      = [unknownNote p (makeTokensByGroup p named).unknown] := by
    unfold noteUnknown
    rw [if_pos]
    exact ⟨by simp [hvarkw], by simp [hunk]⟩
  have hne : handleNotes p vals (makeTokensByGroup p named) ≠ [] := by
    unfold handleNotes
    rw [h3]
    intro hc
    simp [List.append_eq_nil] at hc
  refine ⟨?_, ?_, ?_⟩
  · cases hn : handleNotes p vals (makeTokensByGroup p named) with
    | nil => exact absurd hn hne
    | cons a l => simp [parse_vals, hmagic, hn]
  · unfold handleNotes
    rw [h3]
    simp [List.mem_append]
  · unfold handleNotes
    rw [h7]
    simp [List.mem_append]

/-- Witness for `binding_error_lists_all_violations`: the parser with
required `x`, given only the unknown flag `zz`, reports one error listing
the missing `x` and the unknown `zz`. -/
theorem binding_error_lists_all_violations_witness :
    parse_vals pMagicW [] ([("zz", ["1"])])
      = .errorRes ("missing or conflicting arguments")
          (handleNotes pMagicW [] (makeTokensByGroup pMagicW ([("zz", ["1"])])))
    ∧ missingPosOrKwNote pMagicW 0 (makeTokensByGroup pMagicW ([("zz", ["1"])])).posOrKw
        ∈ handleNotes pMagicW [] (makeTokensByGroup pMagicW ([("zz", ["1"])]))
    ∧ unknownNote pMagicW (makeTokensByGroup pMagicW ([("zz", ["1"])])).unknown
        ∈ handleNotes pMagicW [] (makeTokensByGroup pMagicW ([("zz", ["1"])])) :=
  binding_error_lists_all_violations pMagicW [] ([("zz", ["1"])]) rfl rfl rfl rfl

/-- C8 counterexample: a parser whose single positional-only spec has a
(non-missing) default still fails binding when no positional value is
supplied — the claimed success does not occur; the `n_vals < n_pos_only`
check fires without consulting defaults, so the positional-only default
fallback of the binding phase is unreachable. -/
theorem pos_only_defaults_unreachable_counterexample :
    parse_vals pPosOnlyW [] []
      = .errorRes ("missing or conflicting arguments")
          ["missing positional-only arguments 'x'"]
    ∧ pPosOnlyW.posOnlySpecs.map (fun s => s.2.default.isMissing) = [false] :=
  ⟨rfl, rfl⟩

/-- C8 (amended): for every parser — even one whose positional-only specs
all carry non-missing defaults — an input with fewer positional values
than positional-only specs (and no magic flag) fails with one binding
error whose notes include the missing positional-only arguments
violation. -/
theorem missing_pos_only_error_despite_defaults (p : ParserP) (vals : List String)
    (named : NamedVals)
    (hmagic : (makeTokensByGroup p named).magic.isEmpty = true)
    (hlen : vals.length < p.posOnlySpecs.length) :
    parse_vals p vals named
      = .errorRes ("missing or conflicting arguments")
          (handleNotes p vals (makeTokensByGroup p named))
    ∧ ("missing positional-only arguments "
        ++ join_oxford_comma (missingPosOnlyDests p vals.length) "and")
        ∈ handleNotes p vals (makeTokensByGroup p named) := by
  have h1 : noteMissingPosOnly p vals.length
      = ["missing positional-only arguments "
          ++ join_oxford_comma (missingPosOnlyDests p vals.length) "and"] := by
    unfold noteMissingPosOnly
    rw [if_pos hlen]
  have hne : handleNotes p vals (makeTokensByGroup p named) ≠ [] := by
    unfold handleNotes
    rw [h1]
    intro hc
    simp [List.append_eq_nil] at hc
  refine ⟨?_, ?_⟩
  · cases hn : handleNotes p vals (makeTokensByGroup p named) with
    | nil => exact absurd hn hne
    | cons a l => simp [parse_vals, hmagic, hn]
  · unfold handleNotes
    rw [h1]
    simp [List.mem_append]

/-- Witness for `missing_pos_only_error_despite_defaults` at the concrete
defaulted parser and empty input. -/
theorem missing_pos_only_error_despite_defaults_witness :
    parse_vals pPosOnlyW [] []
      = .errorRes ("missing or conflicting arguments")
          (handleNotes pPosOnlyW [] (makeTokensByGroup pPosOnlyW []))
    ∧ ("missing positional-only arguments "
        ++ join_oxford_comma (missingPosOnlyDests pPosOnlyW 0) "and")
        ∈ handleNotes pPosOnlyW [] (makeTokensByGroup pPosOnlyW []) :=
  missing_pos_only_error_despite_defaults pPosOnlyW [] [] rfl (by decide)

/-- C10 (implicit): whenever `parse_vals` returns normally (neither a
binding error nor an exit), and no registered action produces the
`MISSING` sentinel as a conversion result, the returned `args` and
`kwargs` contain no occurrence of `MISSING`: every position was either
supplied by the input or filled from a non-missing default, validation
having rejected exactly the inputs that would force a missing default
through. -/
theorem parse_vals_ok_no_missing (p : ParserP) (vals : List String) (named : NamedVals)
    (args : List RVal) (kwargs : List (String × RVal))
    (hact : NoMissingActions p)
    (h : parse_vals p vals named = .okRes args kwargs) :
    (∀ v ∈ args, v ≠ RVal.missing) ∧ (∀ kv ∈ kwargs, kv.2 ≠ RVal.missing) := by
  simp only [parse_vals] at h
  cases hmag : (makeTokensByGroup p named).magic.isEmpty with
  | false => rw [hmag] at h; simp at h
  | true =>
    rw [hmag] at h
    simp only [if_true] at h
    cases hn : handleNotes p vals (makeTokensByGroup p named) with
    | cons a l => rw [hn] at h; simp at h
    | nil =>
      rw [hn] at h
      simp only [] at h
      -- peel the five binds
      cases h1 : bindPosOnly p vals with
      | error e => rw [h1] at h; simp [exceptBind_error] at h
      | ok a1 =>
        rw [h1] at h
        simp only [exceptBind_ok] at h
        cases h2 : bindPosOrKw p vals (makeTokensByGroup p named).posOrKw with
        | error e => rw [h2] at h; simp [exceptBind_error] at h
        | ok a2 =>
          rw [h2] at h
          simp only [exceptBind_ok] at h
          cases h3 : bindVarPos p vals with
          | error e => rw [h3] at h; simp [exceptBind_error] at h
          | ok a3 =>
            rw [h3] at h
            simp only [exceptBind_ok] at h
            cases h4 : bindKwOnly p (makeTokensByGroup p named).kwOnly with
            | error e => rw [h4] at h; simp [exceptBind_error] at h
            | ok k1 =>
              rw [h4] at h
              simp only [exceptBind_ok] at h
              cases h5 : bindVarKw p (makeTokensByGroup p named).unknown with
              | error e => rw [h5] at h; simp [exceptBind_error] at h
              | ok k2 =>
                rw [h5] at h
                simp only [exceptBind_ok] at h
                obtain ⟨rfl, rfl⟩ : a1 ++ a2 ++ a3 = args ∧ k1 ++ k2 = kwargs := by
                  cases h
                  exact ⟨rfl, rfl⟩
                -- extract the validation facts from the empty note list
                have hpieces := hn
                unfold handleNotes at hpieces
                simp only [List.append_eq_nil] at hpieces
                obtain ⟨⟨⟨⟨⟨⟨hn1, -⟩, hn3⟩, -⟩, -⟩, hn6⟩, -⟩ := hpieces
                have hlen : p.posOnlySpecs.length ≤ vals.length := by
                  by_contra hc
                  unfold noteMissingPosOnly at hn1
                  rw [if_pos (Nat.lt_of_not_le hc)] at hn1
                  exact List.noConfusion hn1
                have hm3 : (missingPosOrKwDests p vals.length
                    (makeTokensByGroup p named).posOrKw).isEmpty = true := by
                  cases hb : (missingPosOrKwDests p vals.length
                      (makeTokensByGroup p named).posOrKw).isEmpty with
                  | true => rfl
                  | false =>
                    unfold noteMissingPosOrKw at hn3
                    rw [if_neg (by simp [hb])] at hn3
                    exact List.noConfusion hn3
                have hm6 : (missingKwDests p (makeTokensByGroup p named).kwOnly).isEmpty
                    = true := by
                  cases hb : (missingKwDests p (makeTokensByGroup p named).kwOnly).isEmpty with
                  | true => rfl
                  | false =>
                    unfold noteMissingKw at hn6
                    rw [if_neg (by simp [hb])] at hn6
                    exact List.noConfusion hn6
                constructor
                · intro v hv
                  rcases List.mem_append.mp hv with hv' | hv3
                  · rcases List.mem_append.mp hv' with hv1 | hv2
                    · exact bindPosOnly_no_missing p vals a1 hact hlen h1 v hv1
                    · exact bindPosOrKw_no_missing p vals _ a2 hact hm3 h2 v hv2
                  · exact bindVarPos_no_missing p vals a3 hact h3 v hv3
                · intro kv hkv
                  rcases List.mem_append.mp hkv with hk1 | hk2
                  · exact bindKwOnly_no_missing p _ k1 hact hm6 h4 kv hk1
                  · exact bindVarKw_no_missing p _ k2 hact h5 kv hk2

/-- Witness for `parse_vals_ok_no_missing`: the two-argument parser bound
against one positional value succeeds (the second argument falls back to
its default) and neither result contains the sentinel. -/
theorem parse_vals_ok_no_missing_witness :
    (∀ v ∈ [RVal.val (.str ("1")), RVal.val (.int 0)], v ≠ RVal.missing)
    ∧ (∀ kv ∈ ([] : List (String × RVal)), kv.2 ≠ RVal.missing) :=
  parse_vals_ok_no_missing pBindW ["1"] [] [RVal.val (.str ("1")), RVal.val (.int 0)] []
    (by
      intro s hs
      simp only [allSpecs, pBindW, List.append_nil, Option.toList_none,
        List.mem_append, List.mem_singleton] at hs
      rcases hs with hs | hs <;> subst hs <;>
        exact ⟨fun t hc => by simp [strAct] at hc, fun t hc => by simp [strAct] at hc⟩)
    rfl

/-! # Claim theorems: token classification -/

/-- C3: the token classifier maps `["-abc", "0", "1"]` to no positional
values and named groups `[("a", []), ("b", []), ("c", ["0", "1"])]`, and maps
`["0", "1", "-a", "2", "3", "--dog", "4", "5"]` to positionals `["0", "1"]`
and named groups `[("a", ["2", "3"]), ("dog", ["4", "5"])]`. -/
theorem separate_argv_cluster_and_positionals :
    separate_argv (["-abc", "0", "1"])
      = .ok ([], [("a", []), ("b", []), ("c", ["0", "1"])])
    ∧ separate_argv (["0", "1", "-a", "2", "3", "--dog", "4", "5"])
      = .ok ((["0", "1"], [("a", ["2", "3"]), ("dog", ["4", "5"])])) := by
  constructor <;> rfl

end Sugar
